import Mathlib

/-!
A Lean model of the `opti-extensions` index-set data structures
(`src/opti_extensions/_index_sets.py`): the duplicate-free ordered containers
`IndexSet1D` and `IndexSetND`, together with the grouping cache behind
`IndexSetND.subset` and `IndexSetND.squeeze`.

Modelling conventions:

* Python scalar values are modelled by `PyVal.vint` (covering `int` and the
  other ordered scalar kinds such as dates) and `PyVal.vstr` (Python strings,
  modelled opaquely by a numeric id; `PyVal.vstr 0` plays the role of the
  wildcard string `'*'`).  `PyVal.vtup` is a Python `tuple` and `PyVal.vlist`
  stands for any other non-string iterable collection (list, set, ...).
* Python exceptions are modelled by the inductive `PyErr`; each constructor
  records which distinct `(exception class, message)` pair of the source it
  stands for.
* A mutating method of the source is a function `NDState → args →
  Except PyErr result × NDState`: the second component is the state of the
  object after the call, whether it raised or returned, because the source
  mutates attributes in place and a raised exception keeps whatever
  attribute changes already happened.
* `IndexSetND._index_groups` (a dict keyed by dimension-index tuples whose
  values are `defaultdict(list)` groupings) is modelled by insertion-ordered
  association lists, since Python dicts iterate in insertion order.
-/

set_option autoImplicit false

namespace OptiExt

/-- Python values stored in index-sets and used in `subset` patterns.
Strings are opaque ids; `vstr 0` is the wildcard string `'*'`. -/
inductive PyVal where
  | vint : Int → PyVal
  | vstr : Nat → PyVal
  | vtup : List PyVal → PyVal
  | vlist : List PyVal → PyVal

mutual

/-- Decidable equality on `PyVal` (the derive handler does not support the
nested `List PyVal` occurrence, so it is written out). -/
def PyVal.decEq : (a b : PyVal) → Decidable (a = b)
  | .vint a, .vint b =>
      match Int.decEq a b with
      | isTrue h => isTrue (h ▸ rfl)
      | isFalse h => isFalse (fun hh => h (PyVal.vint.inj hh))
  | .vstr a, .vstr b =>
      match Nat.decEq a b with
      | isTrue h => isTrue (h ▸ rfl)
      | isFalse h => isFalse (fun hh => h (PyVal.vstr.inj hh))
  | .vtup a, .vtup b =>
      match PyVal.decEqList a b with
      | isTrue h => isTrue (h ▸ rfl)
      | isFalse h => isFalse (fun hh => h (PyVal.vtup.inj hh))
  | .vlist a, .vlist b =>
      match PyVal.decEqList a b with
      | isTrue h => isTrue (h ▸ rfl)
      | isFalse h => isFalse (fun hh => h (PyVal.vlist.inj hh))
  | .vint _, .vstr _ => isFalse (fun h => PyVal.noConfusion h)
  | .vint _, .vtup _ => isFalse (fun h => PyVal.noConfusion h)
  | .vint _, .vlist _ => isFalse (fun h => PyVal.noConfusion h)
  | .vstr _, .vint _ => isFalse (fun h => PyVal.noConfusion h)
  | .vstr _, .vtup _ => isFalse (fun h => PyVal.noConfusion h)
  | .vstr _, .vlist _ => isFalse (fun h => PyVal.noConfusion h)
  | .vtup _, .vint _ => isFalse (fun h => PyVal.noConfusion h)
  | .vtup _, .vstr _ => isFalse (fun h => PyVal.noConfusion h)
  | .vtup _, .vlist _ => isFalse (fun h => PyVal.noConfusion h)
  | .vlist _, .vint _ => isFalse (fun h => PyVal.noConfusion h)
  | .vlist _, .vstr _ => isFalse (fun h => PyVal.noConfusion h)
  | .vlist _, .vtup _ => isFalse (fun h => PyVal.noConfusion h)

/-- Decidable equality on lists of `PyVal`, mutually with `PyVal.decEq`. -/
def PyVal.decEqList : (a b : List PyVal) → Decidable (a = b)
  | [], [] => isTrue rfl
  | [], _ :: _ => isFalse (fun h => List.noConfusion h)
  | _ :: _, [] => isFalse (fun h => List.noConfusion h)
  | a :: as, b :: bs =>
      match PyVal.decEq a b, PyVal.decEqList as bs with
      | isTrue h1, isTrue h2 => isTrue (h1 ▸ h2 ▸ rfl)
      | isFalse h1, _ => isFalse (fun hh => h1 (List.cons.inj hh).1)
      | _, isFalse h2 => isFalse (fun hh => h2 (List.cons.inj hh).2)

end

instance : DecidableEq PyVal := PyVal.decEq

/-- The wildcard pattern value, Python's `'*'`. -/
def wildcard : PyVal := PyVal.vstr 0

/-- Python's `isinstance(x, Iterable) and not isinstance(x, str)`. -/
def PyVal.isIterNonStr : PyVal → Bool
  | .vtup _ => true
  | .vlist _ => true
  | _ => false

/-- Python's `isinstance(x, tuple)`. -/
def PyVal.isTuple : PyVal → Bool
  | .vtup _ => true
  | _ => false

/-- Python's `not isinstance(x, tuple) and not isinstance(x, str) and
isinstance(x, Collection)`: a non-tuple, non-string collection. -/
def PyVal.isNonTupleCollection : PyVal → Bool
  | .vlist _ => true
  | _ => false

/-- Python's `len` on the values it is applied to in the source
(tuples, and other sized collections); scalars have no `len` and the
source never takes their length. -/
def pyLen : PyVal → Nat
  | .vtup xs => xs.length
  | .vlist xs => xs.length
  | _ => 0

/-- Python's `tuple(x)` coercion of a non-tuple collection. -/
def coerceTuple : PyVal → PyVal
  | .vlist xs => PyVal.vtup xs
  | v => v

/-- `elem[i]` on a tuple element, with a fixed default for out-of-range
access; every caller in the source validates `i` against the established
tuple width first. -/
def pyTupleGet (e : PyVal) (i : Int) : PyVal :=
  match e with
  | .vtup xs => xs.getD i.toNat (PyVal.vint 0)
  | _ => PyVal.vint 0

/-- The distinct Python exceptions raised by the source, one constructor per
`(exception class, message)` pair. -/
inductive PyErr where
  /-- ValueError: input introduced duplicates. -/
  | duplicateElement
  /-- TypeError: input introduced non-scalar element(s) (`IndexSet1D`). -/
  | nonScalarElement
  /-- TypeError: input introduced non-tuple element(s) (`IndexSetND`). -/
  | nonTupleElement
  /-- ValueError: input introduced tuple element(s) of different length. -/
  | inconsistentTupleWidth
  /-- ValueError: all tuple elements must be of same length. -/
  | unequalBatchWidths
  /-- IndexError: position index out of range. -/
  | indexOutOfRange
  /-- ValueError: element not in the IndexSet (`remove`). -/
  | elementNotFound
  /-- TypeError: rich comparison with an unsupported operand type. -/
  | incomparableTypes
  /-- TypeError: the IndexSet has non-comparable elements (`sort`). -/
  | unsortableElements
  /-- LookupError: the IndexSetND is empty (`subset`, `squeeze`, `__le__`). -/
  | emptyCollection
  /-- TypeError: pattern values must be scalars (no iterables except string). -/
  | nonScalarPatternValue
  /-- ValueError: pattern length must be the same as that of the elements. -/
  | patternLengthMismatch
  /-- ValueError: pattern cannot have all wildcards. -/
  | allWildcards
  /-- ValueError: pattern cannot have no wildcards. -/
  | noWildcards
  /-- ValueError: dimension indices are required (`squeeze` with none). -/
  | noDimensionsGiven
  /-- ValueError: dimension indices are invalid (out of range). -/
  | dimensionIndexInvalid
  /-- ValueError: `squeeze` does not work with all dimension indices. -/
  | allDimensionsGiven
  /-- ValueError: `names` should have only one name when squeezing one index. -/
  | namesLengthInvalid
  /-- ValueError: tuple of IndexSet1D must match the element length (`__le__`). -/
  | tupleOf1DLengthMismatch
  /-- AttributeError: `_tuplelen` accessed or deleted while unset. -/
  | missingTuplelen
  /-- ValueError: slice step cannot be zero. -/
  | sliceStepZero
  /-- ValueError: attempt to assign a sequence of mismatched size to an
  extended slice. -/
  | sliceAssignSizeMismatch
deriving DecidableEq

/-- Decidable equality of raised-or-returned outcomes (not provided by the
library for `Except`). -/
instance {ε α : Type} [DecidableEq ε] [DecidableEq α] : DecidableEq (Except ε α) :=
  fun a b =>
    match a, b with
    | .error e, .error f =>
        match decEq e f with
        | isTrue h => isTrue (h ▸ rfl)
        | isFalse h => isFalse (fun hh => h (Except.error.inj hh))
    | .ok x, .ok y =>
        match decEq x y with
        | isTrue h => isTrue (h ▸ rfl)
        | isFalse h => isFalse (fun hh => h (Except.ok.inj hh))
    | .error _, .ok _ => isFalse (fun h => Except.noConfusion h)
    | .ok _, .error _ => isFalse (fun h => Except.noConfusion h)

/-- One `defaultdict(list)` grouping: an insertion-ordered association list
from projected keys to the elements sharing that key. -/
abbrev Group := List (List PyVal × List PyVal)

/-- `group[key].append(elem)` on a `defaultdict(list)`: append to an existing
key's list, or add a new key at the end (dict insertion order). -/
def groupInsert (g : Group) (k : List PyVal) (e : PyVal) : Group :=
  match g with
  | [] => [(k, [e])]
  | (k', es) :: rest =>
      if k' = k then (k', es ++ [e]) :: rest else (k', es) :: groupInsert rest k e

/-- Plain dict lookup in a grouping. -/
def groupLookup (g : Group) (k : List PyVal) : Option (List PyVal) :=
  match g with
  | [] => none
  | (k', es) :: rest => if k' = k then some es else groupLookup rest k

/-- The keys of a grouping, in insertion order (iterating the dict). -/
def groupKeys (g : Group) : List (List PyVal) := g.map Prod.fst

/-- The projected key of an element at the given dimension indices: the
sub-tuple of values at those positions (`itemgetter`), as a 1-tuple when a
single index is given. -/
def projKey (ix : List Int) (e : PyVal) : List PyVal :=
  ix.map (fun i => pyTupleGet e i)

/-- The core loop of `IndexSetND._groupby`: scan the elements once, appending
each to the list keyed by its projected key. -/
def buildGroup (ix : List Int) (l : List PyVal) : Group :=
  l.foldl (fun g e => groupInsert g (projKey ix e) e) []

/-- The `_index_groups` cache: dimension-index combination to grouping. -/
abbrev Cache := List (List Int × Group)

/-- Dict lookup in the `_index_groups` cache. -/
def cacheLookup (c : Cache) (ix : List Int) : Option Group :=
  match c with
  | [] => none
  | (k, g) :: rest => if k = ix then some g else cacheLookup rest ix

/-- The state of an `IndexSet1D`: element list, companion membership set and
the display name. -/
structure OneDState where
  list : List PyVal
  set : Finset PyVal
  name : Option Nat
deriving DecidableEq

/-- The state of an `IndexSetND`: element list, companion membership set,
the established tuple width `_tuplelen` (`none` when the attribute is
unset), the `_index_groups` cache, and the display names. -/
structure NDState where
  list : List PyVal
  set : Finset PyVal
  tuplelen : Option Nat
  indexGroups : Cache
  names : Option (List Nat)
deriving DecidableEq

/-- The state of a freshly constructed empty `IndexSetND`. -/
def ndEmpty (names : Option (List Nat)) : NDState :=
  { list := [], set := ∅, tuplelen := none, indexGroups := [], names := names }

/-! ### Validation helpers (`IndexSet1D` / `IndexSetND` private methods) -/

/-- `IndexSet1D._check_allscalars`: no element may be a non-string iterable. -/
def checkAllscalars (elems : List PyVal) : Except PyErr Unit :=
  if elems.any PyVal.isIterNonStr then .error .nonScalarElement else .ok ()

/-- `IndexSetBase._ensure_no_duplicates` for `IndexSet1D`: coerce to a set,
failing when the list is shorter than the set. -/
def oneDEnsureNoDuplicates (elems : List PyVal) : Except PyErr (Finset PyVal) :=
  if elems.toFinset.card < elems.length then .error .duplicateElement
  else .ok elems.toFinset

/-- `IndexSet1D.__init__` on a materialised input list. -/
def oneDInit (elems : List PyVal) (name : Option Nat) : Except PyErr OneDState :=
  match checkAllscalars elems with
  | .error er => .error er
  | .ok _ =>
      match oneDEnsureNoDuplicates elems with
      | .error er => .error er
      | .ok uniq => .ok { list := elems, set := uniq, name := name }

/-- `IndexSetND._check_alltuples`: every element must be a Python tuple. -/
def checkAlltuples (elems : List PyVal) : Except PyErr Unit :=
  if elems.any (fun x => !x.isTuple) then .error .nonTupleElement else .ok ()

/-- `IndexSetND._check_tuplelen`: all tuple elements must share one length,
which is returned as `len(elems[0])`; on an empty batch the `elems[0]`
access raises `IndexError` exactly as in the source. -/
def checkTuplelen (elems : List PyVal) : Except PyErr Nat :=
  if 1 < (elems.map pyLen).toFinset.card then .error .unequalBatchWidths
  else
    match elems with
    | [] => .error .indexOutOfRange
    | e :: _ => .ok (pyLen e)

/-- `IndexSetND._validate_elements`: tuple check, then width check against the
established `_tuplelen`; when `_tuplelen` is unset it is assigned from the
batch (the returned value is the `_tuplelen` attribute after the call). -/
def validateElements (tuplelen : Option Nat) (elems : List PyVal) :
    Except PyErr (Option Nat) :=
  match checkAlltuples elems with
  | .error er => .error er
  | .ok _ =>
      match tuplelen with
      | some n =>
          match checkTuplelen elems with
          | .error er => .error er
          | .ok m => if n ≠ m then .error .inconsistentTupleWidth else .ok (some n)
      | none =>
          match checkTuplelen elems with
          | .error er => .error er
          | .ok m => .ok (some m)

/-- `IndexSetND._ensure_no_duplicates`: the base duplicate check; on success
the whole `_index_groups` cache is cleared (on failure the exception is
raised before the cache is touched). -/
def ndEnsureNoDuplicates (s : NDState) (elems : List PyVal) :
    Except PyErr (Finset PyVal) × NDState :=
  if elems.toFinset.card < elems.length then (.error .duplicateElement, s)
  else (.ok elems.toFinset, { s with indexGroups := [] })

/-- `IndexSetND._remove_elements`: evict elements from `_set`, clear the
grouping cache, and delete `_tuplelen` when `_list` is empty *at the time of
the call* (`__delitem__` calls this before mutating `_list`); deleting an
unset `_tuplelen` raises `AttributeError` as in Python. -/
def ndRemoveElements (s : NDState) (elems : List PyVal) :
    Except PyErr Unit × NDState :=
  let s1 := { s with set := s.set \ elems.toFinset, indexGroups := [] }
  if s1.list.isEmpty then
    match s1.tuplelen with
    | some _ => (.ok (), { s1 with tuplelen := none })
    | none => (.error .missingTuplelen, s1)
  else (.ok (), s1)

/-! ### Construction (`IndexSetND.__init__`) -/

/-- `itertools.product` over the supplied iterables, in product order
(rightmost iterable varies fastest); each row is the list of picks. -/
def cartProd : List (List PyVal) → List (List PyVal)
  | [] => [[]]
  | xs :: rest => xs.flatMap (fun x => (cartProd rest).map (fun r => x :: r))

mutual

/-- `IndexSetND._flatten` applied to one item of a product row: a nested
non-string iterable is recursively flattened, a scalar stays as itself. -/
def flattenVal : PyVal → List PyVal
  | .vtup ys => flattenRow ys
  | .vlist ys => flattenRow ys
  | x => [x]

/-- `IndexSetND._flatten` applied to the items of one product row:
recursively flatten nested non-string iterables into a flat list of
scalars. -/
def flattenRow : List PyVal → List PyVal
  | [] => []
  | v :: rest => flattenVal v ++ flattenRow rest

end

/-- The elements computed by the multi-iterable branch of
`IndexSetND.__init__`: the Cartesian product, with every row flattened when
(and only when) the *first* row contains a nested non-string iterable. -/
def multiElems (its : List (List PyVal)) : List PyVal :=
  let rows := cartProd its
  match rows with
  | [] => []
  | r0 :: _ =>
      if r0.any PyVal.isIterNonStr then rows.map (fun r => PyVal.vtup (flattenRow r))
      else rows.map PyVal.vtup

/-- The single-iterable branch of `IndexSetND.__init__`: when every element
is a non-tuple, non-string collection, coerce each to a tuple. -/
def singleElems (elems : List PyVal) : List PyVal :=
  if !elems.isEmpty && elems.all PyVal.isNonTupleCollection then elems.map coerceTuple
  else elems

/-- `IndexSetBase.__init__` as specialised by `IndexSetND`: validate the
batch, establish `_tuplelen`, run the duplicate check, and populate `_list`
and `_set`; any failure leaves the object unconstructed. -/
def ndSuperInit (elems : List PyVal) (names : Option (List Nat)) :
    Except PyErr NDState :=
  match validateElements none elems with
  | .error er => .error er
  | .ok tl =>
      if elems.toFinset.card < elems.length then .error .duplicateElement
      else
        .ok { list := elems, set := elems.toFinset, tuplelen := tl,
              indexGroups := [], names := names }

/-- `IndexSetND.__init__` with a single iterable argument. -/
def ndInitSingle (elems0 : List PyVal) (names : Option (List Nat)) :
    Except PyErr NDState :=
  let elems := singleElems elems0
  if elems.isEmpty then .ok (ndEmpty names) else ndSuperInit elems names

/-- `IndexSetND.__init__` with two or more iterable arguments. -/
def ndInitMulti (its : List (List PyVal)) (names : Option (List Nat)) :
    Except PyErr NDState :=
  let elems := multiElems its
  if elems.isEmpty then .ok (ndEmpty names) else ndSuperInit elems names

/-! ### Python sequence-index and slice semantics -/

/-- Python's normalisation of an integer index against a list of length `n`
(negative indices count from the end); `none` is an `IndexError`. -/
def pyIndex (n : Nat) (i : Int) : Option Nat :=
  if 0 ≤ i then (if i < (n : Int) then some i.toNat else none)
  else (if 0 ≤ i + (n : Int) then some (i + (n : Int)).toNat else none)

/-- The clamped insertion position used by `list.insert`. -/
def pyInsertPos (n : Nat) (i : Int) : Nat :=
  if i < 0 then (i + (n : Int)).toNat else min i.toNat n

/-- Insert an element at a (already clamped) position. -/
def insertAt (l : List PyVal) (p : Nat) (e : PyVal) : List PyVal :=
  l.take p ++ e :: l.drop p

/-- A Python `slice(start, stop, step)` object with optional fields. -/
structure PySlice where
  start : Option Int
  stop : Option Int
  step : Option Int
deriving DecidableEq

/-- CPython's `PySlice_Unpack` / `PySlice_AdjustIndices` against length `n`:
the adjusted `(start, stop, step, count)` of a slice, or the zero-step
`ValueError`. -/
def sliceAdjust (n : Nat) (sl : PySlice) : Except PyErr (Int × Int × Int × Nat) :=
  let step := sl.step.getD 1
  if step = 0 then .error .sliceStepZero
  else
    let N : Int := n
    let lower : Int := if step < 0 then -1 else 0
    let upper : Int := if step < 0 then N - 1 else N
    let start : Int :=
      match sl.start with
      | none => if step < 0 then upper else lower
      | some v => if v < 0 then max (v + N) lower else min v upper
    let stop : Int :=
      match sl.stop with
      | none => if step < 0 then lower else upper
      | some v => if v < 0 then max (v + N) lower else min v upper
    let count : Nat :=
      (if 0 < step then (stop - start + step - 1).fdiv step
       else (stop - start + step + 1).fdiv step).toNat
    .ok (start, stop, step, count)

/-- The positions a slice selects, in selection order. -/
def sliceSelected (n : Nat) (sl : PySlice) : Except PyErr (List Int) :=
  match sliceAdjust n sl with
  | .error er => .error er
  | .ok (start, _, step, count) =>
      .ok ((List.range count).map (fun k => start + step * (k : Int)))

/-- `del l[slice]`: drop the selected positions. -/
def pyDelSlice (l : List PyVal) (idxs : List Int) : List PyVal :=
  (l.enum.filter (fun p => !(idxs.contains ((p.1 : Int))))).map Prod.snd

/-- `l[slice] = new`: contiguous replacement for step 1, length-checked
pointwise assignment for an extended slice. -/
def pySetSlice (l : List PyVal) (sl : PySlice) (new : List PyVal) :
    Except PyErr (List PyVal) :=
  match sliceAdjust l.length sl with
  | .error er => .error er
  | .ok (start, stop, step, count) =>
      if step = 1 then
        .ok (l.take start.toNat ++ new ++ l.drop (max start stop).toNat)
      else
        if new.length ≠ count then .error .sliceAssignSizeMismatch
        else
          let idxs := (List.range count).map (fun k => start + step * (k : Int))
          .ok ((idxs.zip new).foldl (fun acc p => acc.set p.1.toNat p.2) l)

/-! ### Mutating operations of `IndexSetND`

Each returns the raised-or-returned outcome together with the state of the
object after the call. -/

/-- `IndexSetND.append`. -/
def ndAppend (s : NDState) (e : PyVal) : Except PyErr Unit × NDState :=
  match validateElements s.tuplelen [e] with
  | .error er => (.error er, s)
  | .ok tl =>
      let s1 := { s with tuplelen := tl }
      match ndEnsureNoDuplicates s1 (s1.list ++ [e]) with
      | (.error er, s2) => (.error er, s2)
      | (.ok uniq, s2) => (.ok (), { s2 with set := uniq, list := s2.list ++ [e] })

/-- `IndexSetND.extend` on a materialised iterable. -/
def ndExtend (s : NDState) (new : List PyVal) : Except PyErr Unit × NDState :=
  match validateElements s.tuplelen new with
  | .error er => (.error er, s)
  | .ok tl =>
      let s1 := { s with tuplelen := tl }
      match ndEnsureNoDuplicates s1 (s1.list ++ new) with
      | (.error er, s2) => (.error er, s2)
      | (.ok uniq, s2) => (.ok (), { s2 with set := uniq, list := s2.list ++ new })

/-- `IndexSetND.insert`. -/
def ndInsert (s : NDState) (i : Int) (e : PyVal) : Except PyErr Unit × NDState :=
  match validateElements s.tuplelen [e] with
  | .error er => (.error er, s)
  | .ok tl =>
      let s1 := { s with tuplelen := tl }
      match ndEnsureNoDuplicates s1 (s1.list ++ [e]) with
      | (.error er, s2) => (.error er, s2)
      | (.ok uniq, s2) =>
          (.ok (), { s2 with set := uniq,
                             list := insertAt s2.list (pyInsertPos s2.list.length i) e })

/-- `IndexSetBase._setitem_idx` as specialised by `IndexSetND`; on a
duplicate the old element is restored before re-raising, so the list is
observably unchanged. -/
def ndSetIdx (s : NDState) (i : Int) (e : PyVal) : Except PyErr Unit × NDState :=
  match validateElements s.tuplelen [e] with
  | .error er => (.error er, s)
  | .ok tl =>
      let s1 := { s with tuplelen := tl }
      match pyIndex s1.list.length i with
      | none => (.error .indexOutOfRange, s1)
      | some j =>
          let newList := s1.list.set j e
          match ndEnsureNoDuplicates s1 newList with
          | (.error er, s2) => (.error er, s2)
          | (.ok uniq, s2) => (.ok (), { s2 with set := uniq, list := newList })

/-- `IndexSetBase._setitem_slice` as specialised by `IndexSetND`; on any
`ValueError` the saved copy of the list is restored before re-raising. -/
def ndSetSlice (s : NDState) (sl : PySlice) (new : List PyVal) :
    Except PyErr Unit × NDState :=
  match validateElements s.tuplelen new with
  | .error er => (.error er, s)
  | .ok tl =>
      let s1 := { s with tuplelen := tl }
      match pySetSlice s1.list sl new with
      | .error er => (.error er, s1)
      | .ok newList =>
          match ndEnsureNoDuplicates s1 newList with
          | (.error er, s2) => (.error er, s2)
          | (.ok uniq, s2) => (.ok (), { s2 with set := uniq, list := newList })

/-- `IndexSetND.__delitem__` with an integer index: the old element is read
and `_remove_elements` runs *before* `del self._list[index]`. -/
def ndDelIdx (s : NDState) (i : Int) : Except PyErr Unit × NDState :=
  match pyIndex s.list.length i with
  | none => (.error .indexOutOfRange, s)
  | some j =>
      let old := s.list.getD j (PyVal.vint 0)
      match ndRemoveElements s [old] with
      | (.error er, s1) => (.error er, s1)
      | (.ok _, s1) => (.ok (), { s1 with list := s1.list.eraseIdx j })

/-- `IndexSetND.__delitem__` with a slice, with the same call order. -/
def ndDelSlice (s : NDState) (sl : PySlice) : Except PyErr Unit × NDState :=
  match sliceSelected s.list.length sl with
  | .error er => (.error er, s)
  | .ok idxs =>
      let old := idxs.map (fun i => s.list.getD i.toNat (PyVal.vint 0))
      match ndRemoveElements s old with
      | (.error er, s1) => (.error er, s1)
      | (.ok _, s1) => (.ok (), { s1 with list := pyDelSlice s1.list idxs })

/-- `IndexSetND.remove`: `list.remove` (first occurrence, `ValueError` when
absent) runs before `_remove_elements`. -/
def ndRemove (s : NDState) (e : PyVal) : Except PyErr Unit × NDState :=
  if e ∈ s.list then ndRemoveElements { s with list := s.list.erase e } [e]
  else (.error .elementNotFound, s)

/-- `IndexSetND.pop`: `list.pop(index)` runs before `_remove_elements`. -/
def ndPop (s : NDState) (i : Int) : Except PyErr PyVal × NDState :=
  match pyIndex s.list.length i with
  | none => (.error .indexOutOfRange, s)
  | some j =>
      let e := s.list.getD j (PyVal.vint 0)
      match ndRemoveElements { s with list := s.list.eraseIdx j } [e] with
      | (.error er, s1) => (.error er, s1)
      | (.ok _, s1) => (.ok e, s1)

/-- `IndexSetND.clear`: empty list and set, clear the cache, and delete
`_tuplelen` inside a `try`/`except AttributeError: pass`. -/
def ndClear (s : NDState) : NDState :=
  let s1 := if s.list.isEmpty then s else { s with list := [], set := ∅ }
  { s1 with indexGroups := [], tuplelen := none }

/-- `IndexSetBase.__iadd__` on a materialised iterable: a falsy (empty)
right-hand side skips validation and mutation entirely. -/
def ndIadd (s : NDState) (other : List PyVal) : Except PyErr Unit × NDState :=
  if other.isEmpty then (.ok (), s)
  else
    match validateElements s.tuplelen other with
    | .error er => (.error er, s)
    | .ok tl =>
        let s1 := { s with tuplelen := tl }
        match ndEnsureNoDuplicates s1 (s1.list ++ other) with
        | (.error er, s2) => (.error er, s2)
        | (.ok uniq, s2) => (.ok (), { s2 with set := uniq, list := s2.list ++ other })

/-! ### `sort` and `reverse` (no cache invalidation in the source) -/

mutual

/-- Python's `<` on the values `list.sort` compares: defined within one
scalar kind, lexicographic on tuples (equal heads skipped, as Python's
tuple comparison first tests `==`, which never raises); `none` models a
`TypeError` between incomparable kinds. -/
def pyLt : PyVal → PyVal → Option Bool
  | .vint a, .vint b => some (decide (a < b))
  | .vstr a, .vstr b => some (decide (a < b))
  | .vtup a, .vtup b => pyLtList a b
  | .vlist a, .vlist b => pyLtList a b
  | _, _ => none

/-- Lexicographic `<` on value lists, mutually with `pyLt`. -/
def pyLtList : List PyVal → List PyVal → Option Bool
  | [], [] => some false
  | [], _ :: _ => some true
  | _ :: _, [] => some false
  | a :: as, b :: bs => if a = b then pyLtList as bs else pyLt a b

end

/-- The boolean `a <= b` used as the sort order on mutually comparable
elements. -/
def pyLeB (a b : PyVal) : Bool := !((pyLt b a).getD false)

/-- Whether every pair of elements is comparable; Python's Timsort raises
`TypeError` on the first incomparable pair it compares. -/
def mutuallyComparable (l : List PyVal) : Bool :=
  l.all (fun a => l.all (fun b => (pyLt a b).isSome))

/-- Stable insertion of `a` into an already sorted list: `a` goes before
the first element it compares `<=` to.  Since the tail holds elements that
occurred *after* `a`, equal elements keep their original relative order. -/
def orderedInsertB (a : PyVal) : List PyVal → List PyVal
  | [] => [a]
  | b :: l => if pyLeB a b then a :: b :: l else b :: orderedInsertB a l

/-- A stable sort by `pyLeB`, modelling CPython's stable `list.sort`. -/
def insertionSortB : List PyVal → List PyVal
  | [] => []
  | a :: l => orderedInsertB a (insertionSortB l)

/-- `IndexSetBase.sort` (natural order): an in-place stable sort of `_list`
only — `_set`, `_tuplelen` and the `_index_groups` cache are untouched.
`reverse=True` is the stable descending sort. -/
def ndSort (s : NDState) (rev : Bool) : Except PyErr Unit × NDState :=
  if mutuallyComparable s.list then
    let sorted := if rev then (insertionSortB s.list.reverse).reverse
                  else insertionSortB s.list
    (.ok (), { s with list := sorted })
  else (.error .unsortableElements, s)

/-- `IndexSetBase.reverse`: reverses `_list` only. -/
def ndReverse (s : NDState) : NDState :=
  { s with list := s.list.reverse }

/-! ### `_groupby`, `subset` and `squeeze` -/

/-- `IndexSetND._groupby`: return the cached grouping for this exact
dimension-index combination, or scan the list once, build the grouping, and
cache it. -/
def groupbyND (s : NDState) (ix : List Int) : Group × NDState :=
  match cacheLookup s.indexGroups ix with
  | some g => (g, s)
  | none =>
      let g := buildGroup ix s.list
      (g, { s with indexGroups := s.indexGroups ++ [(ix, g)] })

/-- `tuple(i for i, v in enumerate(pattern) if v != '*')`, with the running
position as the first argument. -/
def nonWildPositions : Nat → List PyVal → List Int
  | _, [] => []
  | i, v :: rest =>
      if v ≠ wildcard then (i : Int) :: nonWildPositions (i + 1) rest
      else nonWildPositions (i + 1) rest

/-- `IndexSetND.subset`: validate the wildcard pattern, group by the
non-wildcard positions, and look the non-wildcard values up with
`dict.get(given, [])` (never inserting into the `defaultdict`). -/
def subsetND (s : NDState) (pattern : List PyVal) :
    Except PyErr (List PyVal) × NDState :=
  if s.list.isEmpty then (.error .emptyCollection, s)
  else if pattern.any PyVal.isIterNonStr then (.error .nonScalarPatternValue, s)
  else
    match s.tuplelen with
    | none => (.error .missingTuplelen, s)
    | some w =>
        if pattern.length ≠ w then (.error .patternLengthMismatch, s)
        else
          let indices := nonWildPositions 0 pattern
          if indices.length = 0 then (.error .allWildcards, s)
          else if indices.length = w then (.error .noWildcards, s)
          else
            let given := pattern.filter (fun v => decide (v ≠ wildcard))
            let p := groupbyND s indices
            (.ok ((groupLookup p.1 given).getD []), p.2)

/-- `IndexSetND.squeeze`: validate the dimension indices, group by them
(the grouping is built and cached *before* the `names` length check), and
wrap the unique projected keys in a new `IndexSet1D` (one index, the keys'
single components) or `IndexSetND` (several indices, the key tuples).  All
indices are integers by the type of the embedding, so the non-integer
`TypeError` branch cannot fire. -/
def squeezeND (s : NDState) (indices : List Int) (names : Option (List Nat)) :
    Except PyErr (OneDState ⊕ NDState) × NDState :=
  if s.list.isEmpty then (.error .emptyCollection, s)
  else if indices.isEmpty then (.error .noDimensionsGiven, s)
  else
    match s.tuplelen with
    | none => (.error .missingTuplelen, s)
    | some w =>
        if indices.any (fun i => decide (i < 0) || decide ((w : Int) ≤ i)) then
          (.error .dimensionIndexInvalid, s)
        else if indices.length = w then (.error .allDimensionsGiven, s)
        else
          let p := groupbyND s indices
          if 1 < indices.length then
            match ndInitSingle (p.1.map (fun pr => PyVal.vtup pr.1)) names with
            | .error er => (.error er, p.2)
            | .ok t => (.ok (.inr t), p.2)
          else
            match names with
            | some (_ :: _ :: _) => (.error .namesLengthInvalid, p.2)
            | _ =>
                let name : Option Nat :=
                  match names with
                  | some (n :: _) => some n
                  | _ => none
                match oneDInit (p.1.map (fun pr => pr.1.headD (PyVal.vint 0))) name with
                | .error er => (.error er, p.2)
                | .ok t => (.ok (.inl t), p.2)

/-! ### Rich comparisons -/

/-- The possible right-hand operands of a rich comparison. -/
inductive Operand where
  | ond : NDState → Operand
  | o1d : OneDState → Operand
  | otup : List Operand → Operand
  | oval : PyVal → Operand

/-- The six rich comparison operators. -/
inductive CmpOp where
  | lt | le | eq | ne | gt | ge
deriving DecidableEq

/-- `set` rich comparison between the membership sets of two same-typed
collections. -/
def setCmp (a b : Finset PyVal) : CmpOp → Bool
  | .lt => decide (a ⊂ b)
  | .le => decide (a ⊆ b)
  | .eq => decide (a = b)
  | .ne => decide (a ≠ b)
  | .gt => decide (b ⊂ a)
  | .ge => decide (b ⊆ a)

/-- Rich comparison on `IndexSet1D` (all six operators come from
`IndexSetBase` and require the operand to be an `IndexSet1D`). -/
def cmp1D (s : OneDState) (op : CmpOp) (other : Operand) : Except PyErr Bool :=
  match other with
  | .o1d t => .ok (setCmp s.set t.set op)
  | _ => .error .incomparableTypes

/-- `all(isinstance(x, IndexSet1D) for x in other)` on a Python tuple
(vacuously true for the empty tuple). -/
def asAll1D : List Operand → Option (List OneDState)
  | [] => some []
  | .o1d t :: rest => (asAll1D rest).map (fun ts => t :: ts)
  | _ => none

/-- The loop of `IndexSetND.__le__` over a tuple of `IndexSet1D`: squeeze
each dimension in turn (caching its grouping) and compare; stops at the
first failing dimension.  A multi-index squeeze result is impossible for a
single index; its branch inlines the `TypeError` that
`IndexSetND.__le__` raises for a non-`IndexSetND`, non-tuple operand. -/
def leNDLoop : NDState → List OneDState → Nat → Except PyErr Bool × NDState
  | s, [], _ => (.ok true, s)
  | s, vals :: rest, i =>
      match squeezeND s [(i : Int)] none with
      | (.error er, s1) => (.error er, s1)
      | (.ok (.inl od), s1) =>
          if od.set ⊆ vals.set then leNDLoop s1 rest (i + 1) else (.ok false, s1)
      | (.ok (.inr _), s1) => (.error .incomparableTypes, s1)

/-- `IndexSetND.__le__`: subset check against another `IndexSetND`, or the
dimension-wise check against a tuple of `IndexSet1D`. -/
def leND (s : NDState) (other : Operand) : Except PyErr Bool × NDState :=
  match other with
  | .ond t => (.ok (decide (s.set ⊆ t.set)), s)
  | .otup xs =>
      match asAll1D xs with
      | some sets =>
          if s.list.isEmpty then (.error .emptyCollection, s)
          else
            match s.tuplelen with
            | none => (.error .missingTuplelen, s)
            | some w =>
                if w ≠ sets.length then (.error .tupleOf1DLengthMismatch, s)
                else leNDLoop s sets 0
      | none => (.error .incomparableTypes, s)
  | _ => (.error .incomparableTypes, s)

/-- Rich comparison on `IndexSetND`: `<=` is overridden, the other five
operators come from `IndexSetBase` and require an `IndexSetND` operand. -/
def cmpND (s : NDState) (op : CmpOp) (other : Operand) :
    Except PyErr Bool × NDState :=
  match op with
  | .le => leND s other
  | _ =>
      match other with
      | .ond t => (.ok (setCmp s.set t.set op), s)
      | _ => (.error .incomparableTypes, s)

/-! ### The operations as a step relation, and reachable states -/

/-- The structural mutations of an `IndexSetND`. -/
inductive MutOp where
  | append : PyVal → MutOp
  | extend : List PyVal → MutOp
  | insert : Int → PyVal → MutOp
  | setIdx : Int → PyVal → MutOp
  | setSlice : PySlice → List PyVal → MutOp
  | delIdx : Int → MutOp
  | delSlice : PySlice → MutOp
  | remove : PyVal → MutOp
  | pop : Int → MutOp
  | clear : MutOp
  | iadd : List PyVal → MutOp
deriving DecidableEq

/-- Run one structural mutation. -/
def applyMut (s : NDState) (op : MutOp) : Except PyErr Unit × NDState :=
  match op with
  | .append e => ndAppend s e
  | .extend es => ndExtend s es
  | .insert i e => ndInsert s i e
  | .setIdx i e => ndSetIdx s i e
  | .setSlice sl es => ndSetSlice s sl es
  | .delIdx i => ndDelIdx s i
  | .delSlice sl => ndDelSlice s sl
  | .remove e => ndRemove s e
  | .pop i =>
      match ndPop s i with
      | (.error er, s1) => (.error er, s1)
      | (.ok _, s1) => (.ok (), s1)
  | .clear => (.ok (), ndClear s)
  | .iadd es => ndIadd s es

/-- Every operation of an `IndexSetND` that can change its state. -/
inductive NDOp where
  | mutate : MutOp → NDOp
  | sortOp : Bool → NDOp
  | reverseOp : NDOp
  | subsetQ : List PyVal → NDOp
  | squeezeQ : List Int → Option (List Nat) → NDOp
  | leQ : Operand → NDOp
  | setNames : Option (List Nat) → NDOp

/-- The state of the object after running one operation (whether the call
returned or raised: a raised exception keeps the attribute changes already
made). -/
def applyFull (s : NDState) (op : NDOp) : NDState :=
  match op with
  | .mutate m => (applyMut s m).2
  | .sortOp rev => (ndSort s rev).2
  | .reverseOp => ndReverse s
  | .subsetQ pat => (subsetND s pat).2
  | .squeezeQ ix names => (squeezeND s ix names).2
  | .leQ other => (leND s other).2
  | .setNames names => { s with names := names }

/-- The states an `IndexSetND` object can be in: freshly constructed, or the
result of running any operation on a reachable state. -/
inductive ReachableND : NDState → Prop where
  | init1 : ∀ (elems : List PyVal) (names : Option (List Nat)) (s : NDState),
      ndInitSingle elems names = .ok s → ReachableND s
  | initM : ∀ (its : List (List PyVal)) (names : Option (List Nat)) (s : NDState),
      ndInitMulti its names = .ok s → ReachableND s
  | step : ∀ (s : NDState) (op : NDOp), ReachableND s → ReachableND (applyFull s op)

/-! ### Reference (specification-side) definitions

These translate the quantifier-level formulas of the specification, to be
compared with the implementation above. -/

/-- `all(e[i] == p or p == '*' for i, p in enumerate(pattern))`, with the
running position as an argument. -/
def matchesFrom (e : PyVal) : Nat → List PyVal → Bool
  | _, [] => true
  | i, p :: ps =>
      (decide (pyTupleGet e (i : Int) = p) || decide (p = wildcard)) &&
        matchesFrom e (i + 1) ps

/-- Whether an element matches a wildcard pattern. -/
def matchesPattern (pat : List PyVal) (e : PyVal) : Bool := matchesFrom e 0 pat

/-- The reference list comprehension for `subset`:
`[e for e in collection if all(e[i] == p or p == '*' ...)]`. -/
def subsetSpec (l : List PyVal) (pat : List PyVal) : List PyVal :=
  l.filter (matchesPattern pat)

/-- The naive linear-scan reference for `squeeze`: the projected keys of the
elements, keeping first occurrences only. -/
def squeezeSpec (l : List PyVal) (ix : List Int) : List (List PyVal) :=
  l.foldl (fun acc e => if projKey ix e ∈ acc then acc else acc ++ [projKey ix e]) []

/-- Every populated cache entry is the grouping, for its dimension indices,
of some permutation of the current element list.  This is the cache
coherence invariant that every reachable state satisfies (`sort` and
`reverse` permute `_list` without touching the cache, so cached groupings
can reflect a stale *order*, but never stale *contents*). -/
def CacheInv (s : NDState) : Prop :=
  ∀ pr ∈ s.indexGroups, ∃ l2 : List PyVal, l2.Perm s.list ∧ pr.2 = buildGroup pr.1 l2

/-- Every populated cache entry is the grouping of the current element list
itself (current order included).  Holds whenever no `sort`/`reverse`
happened since the cache was last cleared; in particular when the cache is
empty. -/
def CacheFresh (s : NDState) : Prop :=
  ∀ pr ∈ s.indexGroups, pr.2 = buildGroup pr.1 s.list

/-- The data-model invariant for tuple elements: every element is a
width-`w` tuple of scalars. -/
def scalarTuples (l : List PyVal) (w : Nat) : Bool :=
  l.all (fun e =>
    match e with
    | .vtup xs => decide (xs.length = w) && xs.all (fun v => !v.isIterNonStr)
    | _ => false)

/-- The width one item contributes to a flattened product row. -/
def flattenItem (v : PyVal) : List PyVal := flattenRow [v]

/-- Each supplied constructor iterable contributes a fixed flattened
width. -/
def widthsContributed (its : List (List PyVal)) (ws : List Nat) : Bool :=
  decide (its.length = ws.length) &&
    (its.zip ws).all (fun p => p.1.all (fun v => decide ((flattenItem v).length = p.2)))

/-! ### Concrete runs of the model

States built through the public constructors and operations, used to
evaluate the implementation on concrete inputs. -/

/-- Shorthand for a 2-tuple of integers. -/
def vt (a b : Int) : PyVal := PyVal.vtup [PyVal.vint a, PyVal.vint b]

/-- `IndexSetND([(0, 1), (0, 0)])`. -/
def c1Start : NDState :=
  (ndInitSingle [vt 0 1, vt 0 0] none).toOption.getD (ndEmpty none)

/-- The same object after `subset(0, '*')` populated the cache. -/
def c1Cached : NDState := (subsetND c1Start [PyVal.vint 0, wildcard]).2

/-- The same object after a subsequent `sort()`. -/
def c1Sorted : NDState := (ndSort c1Cached false).2

/-- `IndexSetND([(1, 5), (0, 6)])`. -/
def c5Start : NDState :=
  (ndInitSingle [vt 1 5, vt 0 6] none).toOption.getD (ndEmpty none)

/-- The same object after `squeeze(0)` populated the cache. -/
def c5Cached : NDState := (squeezeND c5Start [0] none).2

/-- The same object after a subsequent `sort()`. -/
def c5Sorted : NDState := (ndSort c5Cached false).2

/-- `IndexSetND([(0, 1)])`: one element. -/
def c4One : NDState :=
  (ndInitSingle [vt 0 1] none).toOption.getD (ndEmpty none)

/-- The constructor iterables `[1, (2, 3)]` and `['a']` (a mixed iterable
whose first item is a scalar and second a tuple). -/
def c6Mixed : List (List PyVal) :=
  [[PyVal.vint 1, PyVal.vtup [PyVal.vint 2, PyVal.vint 3]], [PyVal.vstr 5]]

/-- The constructor iterables `['F1', 'F2', 'F3']` and `range(2)`. -/
def c6Plain : List (List PyVal) :=
  [[PyVal.vstr 1, PyVal.vstr 2, PyVal.vstr 3], [PyVal.vint 0, PyVal.vint 1]]

/-- `IndexSetND(['F1', 'F2', 'F3'], range(2))`. -/
def c6Pairs : NDState := (ndInitMulti c6Plain none).toOption.getD (ndEmpty none)

/-- `IndexSet1D([0])`. -/
def c8A : OneDState :=
  (oneDInit [PyVal.vint 0] none).toOption.getD { list := [], set := ∅, name := none }

/-- `IndexSet1D([1])`. -/
def c8B : OneDState :=
  (oneDInit [PyVal.vint 1] none).toOption.getD { list := [], set := ∅, name := none }

/-- `IndexSet1D([0, 1])`. -/
def c8C : OneDState :=
  (oneDInit [PyVal.vint 0, PyVal.vint 1] none).toOption.getD
    { list := [], set := ∅, name := none }

/-- `IndexSetND(range(2), range(2))`: the 2×2 combinations. -/
def cmb2 : NDState :=
  (ndInitMulti [[PyVal.vint 0, PyVal.vint 1], [PyVal.vint 0, PyVal.vint 1]] none).toOption.getD
    (ndEmpty none)

/-! ### Lemmas about groupings -/

theorem groupLookup_groupInsert (g : Group) (k k' : List PyVal) (e : PyVal) :
    groupLookup (groupInsert g k e) k' =
      if k' = k then some ((groupLookup g k').getD [] ++ [e]) else groupLookup g k' := by
  induction g with
  | nil =>
      by_cases h : k' = k
      · simp [groupInsert, groupLookup, h]
      · simp [groupInsert, groupLookup, h, Ne.symm h]
  | cons pr rest ih =>
      obtain ⟨k0, es⟩ := pr
      by_cases h0 : k0 = k
      · subst h0
        by_cases h1 : k' = k0
        · subst h1
          simp [groupInsert, groupLookup]
        · have h1' : ¬ k0 = k' := fun hh => h1 hh.symm
          simp [groupInsert, groupLookup, h1, h1']
      · by_cases h1 : k0 = k'
        · subst h1
          have h2 : ¬ k0 = k := h0
          simp [groupInsert, groupLookup, h0, h2]
        · have hstep : groupLookup (groupInsert ((k0, es) :: rest) k e) k' =
              groupLookup (groupInsert rest k e) k' := by
            simp [groupInsert, groupLookup, h0, h1]
          rw [hstep, ih]
          by_cases h2 : k' = k <;> simp [groupLookup, h0, h1, h2]

theorem buildGroup_concat (ix : List Int) (l : List PyVal) (e : PyVal) :
    buildGroup ix (l ++ [e]) = groupInsert (buildGroup ix l) (projKey ix e) e := by
  simp [buildGroup, List.foldl_append]

/-- The grouping's entry at a key is exactly the filter of the scanned list
by that projected key (`none` when no element realises the key). -/
theorem groupLookup_buildGroup (ix : List Int) (l : List PyVal) (k : List PyVal) :
    groupLookup (buildGroup ix l) k =
      (if l.filter (fun e => decide (projKey ix e = k)) = [] then none
       else some (l.filter (fun e => decide (projKey ix e = k)))) := by
  induction l using List.reverseRecOn with
  | nil => simp [buildGroup, groupLookup]
  | append_singleton l e ih =>
      rw [buildGroup_concat, groupLookup_groupInsert, List.filter_append]
      by_cases h : projKey ix e = k
      · simp only [if_pos h.symm, ih]
        by_cases h2 : l.filter (fun e => decide (projKey ix e = k)) = [] <;>
          simp [h2, h]
      · have h' : ¬ k = projKey ix e := fun hh => h hh.symm
        simp only [if_neg h', ih]
        by_cases h2 : l.filter (fun e => decide (projKey ix e = k)) = [] <;>
          simp [h2, h]

/-- `dict.get(key, [])` on a built grouping is the filter of the scanned
list. -/
theorem groupGet_buildGroup (ix : List Int) (l : List PyVal) (k : List PyVal) :
    (groupLookup (buildGroup ix l) k).getD [] =
      l.filter (fun e => decide (projKey ix e = k)) := by
  rw [groupLookup_buildGroup]
  by_cases h : l.filter (fun e => decide (projKey ix e = k)) = [] <;> simp [h]

theorem groupKeys_groupInsert (g : Group) (k : List PyVal) (e : PyVal) :
    groupKeys (groupInsert g k e) =
      if k ∈ groupKeys g then groupKeys g else groupKeys g ++ [k] := by
  induction g with
  | nil => simp [groupInsert, groupKeys]
  | cons pr rest ih =>
      obtain ⟨k0, es⟩ := pr
      by_cases h0 : k0 = k
      · simp [groupInsert, groupKeys, h0]
      · have h0' : ¬ k = k0 := fun hh => h0 hh.symm
        by_cases h1 : k ∈ groupKeys rest <;>
          simp [groupInsert, groupKeys, h0, h0', h1] <;> simp_all [groupKeys]

theorem groupKeys_foldl (ix : List Int) (l : List PyVal) (g : Group) :
    groupKeys (l.foldl (fun g e => groupInsert g (projKey ix e) e) g) =
      l.foldl (fun acc e => if projKey ix e ∈ acc then acc else acc ++ [projKey ix e])
        (groupKeys g) := by
  induction l generalizing g with
  | nil => rfl
  | cons e rest ih => simp only [List.foldl_cons, ih, groupKeys_groupInsert]

/-- The keys of a built grouping, in insertion order, are the naive
first-occurrence scan of the projected keys. -/
theorem groupKeys_buildGroup (ix : List Int) (l : List PyVal) :
    groupKeys (buildGroup ix l) = squeezeSpec l ix := by
  have h := groupKeys_foldl ix l []
  simpa [buildGroup, squeezeSpec, groupKeys] using h

theorem squeezeSpec_sub (l : List PyVal) (ix : List Int) (acc : List (List PyVal))
    (k : List PyVal) :
    k ∈ l.foldl (fun acc e => if projKey ix e ∈ acc then acc else acc ++ [projKey ix e]) acc ↔
      k ∈ acc ∨ ∃ e ∈ l, projKey ix e = k := by
  induction l generalizing acc with
  | nil => simp
  | cons e rest ih =>
      simp only [List.foldl_cons]
      by_cases h : projKey ix e ∈ acc
      · rw [if_pos h, ih]
        constructor
        · rintro (hk | ⟨e', he', hk⟩)
          · exact Or.inl hk
          · exact Or.inr ⟨e', List.mem_cons_of_mem _ he', hk⟩
        · rintro (hk | ⟨e', he', hk⟩)
          · exact Or.inl hk
          · rcases List.mem_cons.1 he' with he' | he'
            · subst he'; exact Or.inl (hk ▸ h)
            · exact Or.inr ⟨e', he', hk⟩
      · rw [if_neg h, ih]
        constructor
        · rintro (hk | ⟨e', he', hk⟩)
          · rcases List.mem_append.1 hk with hk | hk
            · exact Or.inl hk
            · exact Or.inr ⟨e, List.mem_cons_self _ _, (List.mem_singleton.1 hk).symm⟩
          · exact Or.inr ⟨e', List.mem_cons_of_mem _ he', hk⟩
        · rintro (hk | ⟨e', he', hk⟩)
          · exact Or.inl (List.mem_append.2 (Or.inl hk))
          · rcases List.mem_cons.1 he' with he' | he'
            · subst he'
              exact Or.inl (List.mem_append.2 (Or.inr (by simp [hk])))
            · exact Or.inr ⟨e', he', hk⟩

/-- A key appears in the first-occurrence scan iff some element realises
it. -/
theorem mem_squeezeSpec (l : List PyVal) (ix : List Int) (k : List PyVal) :
    k ∈ squeezeSpec l ix ↔ ∃ e ∈ l, projKey ix e = k := by
  have h := squeezeSpec_sub l ix [] k
  simpa [squeezeSpec] using h

theorem squeezeSpec_nodup_sub (l : List PyVal) (ix : List Int)
    (acc : List (List PyVal)) (hacc : acc.Nodup) :
    (l.foldl (fun acc e => if projKey ix e ∈ acc then acc else acc ++ [projKey ix e])
      acc).Nodup := by
  induction l generalizing acc with
  | nil => simpa
  | cons e rest ih =>
      by_cases h : projKey ix e ∈ acc
      · rw [List.foldl_cons, if_pos h]
        exact ih acc hacc
      · rw [List.foldl_cons, if_neg h]
        exact ih _ (by simp [List.nodup_append, hacc, h])

/-- The first-occurrence scan has no duplicate keys. -/
theorem squeezeSpec_nodup (l : List PyVal) (ix : List Int) :
    (squeezeSpec l ix).Nodup :=
  squeezeSpec_nodup_sub l ix [] List.nodup_nil

/-- Every projected key has the arity of the dimension-index combination. -/
theorem length_projKey (ix : List Int) (e : PyVal) :
    (projKey ix e).length = ix.length := by
  simp [projKey]

/-! ### Lemmas about wildcard patterns -/

/-- An element's projection at the non-wildcard positions equals the
non-wildcard values iff the element matches the pattern in the sense of the
reference comprehension. -/
theorem projKey_nonWild (pat : List PyVal) (e : PyVal) : ∀ n : Nat,
    (projKey (nonWildPositions n pat) e =
        pat.filter (fun v => decide (v ≠ wildcard))) ↔ matchesFrom e n pat = true := by
  induction pat with
  | nil => intro n; simp [nonWildPositions, projKey, matchesFrom]
  | cons p ps ih =>
      intro n
      by_cases hp : p = wildcard
      · subst hp
        rw [show nonWildPositions n (wildcard :: ps) = nonWildPositions (n + 1) ps from
              by simp [nonWildPositions]]
        rw [show (wildcard :: ps).filter (fun v => decide (v ≠ wildcard)) =
              ps.filter (fun v => decide (v ≠ wildcard)) from by simp [List.filter_cons]]
        rw [show matchesFrom e n (wildcard :: ps) = matchesFrom e (n + 1) ps from
              by simp [matchesFrom]]
        exact ih (n + 1)
      · rw [show nonWildPositions n (p :: ps) = (n : Int) :: nonWildPositions (n + 1) ps from
              by simp [nonWildPositions, hp]]
        rw [show (p :: ps).filter (fun v => decide (v ≠ wildcard)) =
              p :: ps.filter (fun v => decide (v ≠ wildcard)) from
              by simp [List.filter_cons, hp]]
        rw [show projKey ((n : Int) :: nonWildPositions (n + 1) ps) e =
              pyTupleGet e (n : Int) :: projKey (nonWildPositions (n + 1) ps) e from rfl]
        constructor
        · intro h
          have h1 := (List.cons.inj h).1
          have h2 := (List.cons.inj h).2
          simp [matchesFrom, h1, (ih (n + 1)).1 h2]
        · intro h
          simp only [matchesFrom, Bool.and_eq_true, Bool.or_eq_true, decide_eq_true_eq] at h
          obtain ⟨h1, h2⟩ := h
          rcases h1 with h1 | h1
          · exact congrArg₂ List.cons h1 ((ih (n + 1)).2 h2)
          · exact absurd h1 hp

theorem length_nonWildPositions (pat : List PyVal) : ∀ n : Nat,
    (nonWildPositions n pat).length =
      (pat.filter (fun v => decide (v ≠ wildcard))).length := by
  induction pat with
  | nil => intro n; simp [nonWildPositions]
  | cons p ps ih =>
      intro n
      by_cases hp : p = wildcard <;> simp [nonWildPositions, hp, ih (n + 1)]

/-- A pattern with at least one non-wildcard value yields a non-empty
dimension-index combination. -/
theorem nonWild_len_pos (pat : List PyVal) (hsome : ∃ v ∈ pat, v ≠ wildcard) :
    (nonWildPositions 0 pat).length ≠ 0 := by
  rw [length_nonWildPositions pat 0]
  obtain ⟨v, hv, hne⟩ := hsome
  intro hlen
  rw [List.length_eq_zero] at hlen
  have := List.filter_eq_nil_iff.1 hlen v hv
  simp [hne] at this

/-- A pattern with at least one wildcard yields strictly fewer dimension
indices than pattern values. -/
theorem nonWild_len_lt (pat : List PyVal) (hw : ∃ v ∈ pat, v = wildcard) :
    (nonWildPositions 0 pat).length ≠ pat.length := by
  rw [length_nonWildPositions pat 0]
  obtain ⟨v, hv, hveq⟩ := hw
  intro hlen
  have hfe : pat.filter (fun v => decide (v ≠ wildcard)) = pat :=
    (List.filter_sublist pat).eq_of_length hlen
  have := (List.filter_eq_self.1 hfe) v hv
  simp [hveq] at this

/-- The per-element filter by projected key agrees with the reference
comprehension filter. -/
theorem filter_projKey_eq_subsetSpec (l : List PyVal) (pat : List PyVal) :
    l.filter (fun e => decide (projKey (nonWildPositions 0 pat) e =
      pat.filter (fun v => decide (v ≠ wildcard)))) = subsetSpec l pat := by
  unfold subsetSpec matchesPattern
  apply List.filter_congr
  intro e _
  by_cases hm : matchesFrom e 0 pat = true
  · rw [hm]
    exact decide_eq_true ((projKey_nonWild pat e 0).2 hm)
  · have hne : ¬ (projKey (nonWildPositions 0 pat) e =
        pat.filter (fun v => decide (v ≠ wildcard))) :=
      fun hh => hm ((projKey_nonWild pat e 0).1 hh)
    rw [Bool.not_eq_true] at hm
    rw [hm]
    exact decide_eq_false hne

/-! ### Lemmas about the cache and `_groupby` -/

theorem cacheLookup_mem (c : Cache) (ix : List Int) (g : Group)
    (h : cacheLookup c ix = some g) : (ix, g) ∈ c := by
  induction c with
  | nil => simp [cacheLookup] at h
  | cons pr rest ih =>
      obtain ⟨k, g0⟩ := pr
      by_cases hk : k = ix
      · subst hk
        simp [cacheLookup] at h
        simp [h]
      · simp [cacheLookup, hk] at h
        exact List.mem_cons_of_mem _ (ih h)

/-- Under the cache-coherence invariant, the grouping `_groupby` returns is
the grouping of some permutation of the current list. -/
theorem groupbyND_group (s : NDState) (ix : List Int) (h : CacheInv s) :
    ∃ l2 : List PyVal, l2.Perm s.list ∧ (groupbyND s ix).1 = buildGroup ix l2 := by
  unfold groupbyND
  cases hc : cacheLookup s.indexGroups ix with
  | none => exact ⟨s.list, List.Perm.refl _, rfl⟩
  | some g =>
      obtain ⟨l2, hp, hg⟩ := h (ix, g) (cacheLookup_mem _ _ _ hc)
      exact ⟨l2, hp, hg⟩

/-- Under cache freshness, `_groupby` returns the grouping of the current
list itself. -/
theorem groupbyND_group_fresh (s : NDState) (ix : List Int) (h : CacheFresh s) :
    (groupbyND s ix).1 = buildGroup ix s.list := by
  unfold groupbyND
  cases hc : cacheLookup s.indexGroups ix with
  | none => rfl
  | some g => exact h (ix, g) (cacheLookup_mem _ _ _ hc)

/-- `_groupby` either hits the cache (state unchanged) or stores the fresh
grouping of the current list. -/
theorem groupbyND_state (s : NDState) (ix : List Int) :
    (groupbyND s ix).2 = s ∨
      (groupbyND s ix).2 =
        { s with indexGroups := s.indexGroups ++ [(ix, buildGroup ix s.list)] } := by
  unfold groupbyND
  cases cacheLookup s.indexGroups ix <;> simp

theorem groupbyND_frame (s : NDState) (ix : List Int) :
    (groupbyND s ix).2.list = s.list ∧ (groupbyND s ix).2.set = s.set ∧
      (groupbyND s ix).2.tuplelen = s.tuplelen ∧ (groupbyND s ix).2.names = s.names := by
  rcases groupbyND_state s ix with h | h <;> rw [h] <;> exact ⟨rfl, rfl, rfl, rfl⟩

/-- A `subset` call with a valid non-degenerate pattern reaches the grouping
lookup on the non-wildcard positions and values. -/
theorem subsetND_success (s : NDState) (pat : List PyVal) (w : Nat)
    (hne : s.list ≠ []) (hsc : pat.any PyVal.isIterNonStr = false)
    (hw : s.tuplelen = some w) (hl : pat.length = w)
    (hsome : (nonWildPositions 0 pat).length ≠ 0)
    (hnall : (nonWildPositions 0 pat).length ≠ w) :
    subsetND s pat =
      (.ok ((groupLookup (groupbyND s (nonWildPositions 0 pat)).1
          (pat.filter (fun v => decide (v ≠ wildcard)))).getD []),
        (groupbyND s (nonWildPositions 0 pat)).2) := by
  unfold subsetND
  rw [hw]
  simp [List.isEmpty_iff, hne, hsc, hl, hsome, hnall]

/-- Core correctness of `subset` under cache coherence: the returned list is
the reference comprehension up to the permutation introduced by a stale
cached order, and exactly the comprehension when the cache is fresh. -/
theorem subsetND_ok (s : NDState) (pat : List PyVal) (w : Nat)
    (hinv : CacheInv s)
    (hne : s.list ≠ []) (hsc : pat.any PyVal.isIterNonStr = false)
    (hw : s.tuplelen = some w) (hl : pat.length = w)
    (hsome : ∃ v ∈ pat, v ≠ wildcard) (hwild : ∃ v ∈ pat, v = wildcard) :
    ∃ res, (subsetND s pat).1 = .ok res ∧ res.Perm (subsetSpec s.list pat) ∧
      (CacheFresh s → res = subsetSpec s.list pat) := by
  have h1 := nonWild_len_pos pat hsome
  have h2 := nonWild_len_lt pat hwild
  rw [hl] at h2
  have hs := subsetND_success s pat w hne hsc hw hl h1 h2
  obtain ⟨l2, hperm, hg⟩ := groupbyND_group s (nonWildPositions 0 pat) hinv
  refine ⟨_, by rw [hs], ?_, ?_⟩
  · rw [hg, groupGet_buildGroup, filter_projKey_eq_subsetSpec]
    exact List.Perm.filter _ hperm
  · intro hfresh
    rw [groupbyND_group_fresh s _ hfresh, groupGet_buildGroup,
      filter_projKey_eq_subsetSpec]

/-! ### Cache coherence is preserved by every operation -/

theorem cacheInv_of_empty {s' : NDState} (h : s'.indexGroups = []) : CacheInv s' := by
  intro pr hpr
  rw [h] at hpr
  cases hpr

theorem cacheInv_same {s s' : NDState} (hinv : CacheInv s)
    (hg : s'.indexGroups = s.indexGroups) (hl : s'.list.Perm s.list) : CacheInv s' := by
  intro pr hpr
  obtain ⟨l2, hp, he⟩ := hinv pr (hg ▸ hpr)
  exact ⟨l2, hp.trans hl.symm, he⟩

/-- The two possible outcomes of `_ensure_no_duplicates`: failure with the
state untouched, or success with the cache cleared. -/
theorem ndEnsure_cases (s : NDState) (elems : List PyVal) :
    (∃ er, ndEnsureNoDuplicates s elems = (.error er, s)) ∨
      (∃ u, ndEnsureNoDuplicates s elems = (.ok u, { s with indexGroups := [] })) := by
  unfold ndEnsureNoDuplicates
  split
  · exact Or.inl ⟨_, rfl⟩
  · exact Or.inr ⟨_, rfl⟩

/-- `_remove_elements` always leaves the cache cleared. -/
theorem ndRemoveElements_groups (s : NDState) (elems : List PyVal) :
    (ndRemoveElements s elems).2.indexGroups = [] := by
  unfold ndRemoveElements
  rcases h : s.list.isEmpty with _ | _ <;> rcases ht : s.tuplelen with _ | _ <;>
    simp [h, ht]

/-- `_remove_elements` never touches `_list`. -/
theorem ndRemoveElements_list (s : NDState) (elems : List PyVal) :
    (ndRemoveElements s elems).2.list = s.list := by
  unfold ndRemoveElements
  rcases h : s.list.isEmpty with _ | _ <;> rcases ht : s.tuplelen with _ | _ <;>
    simp [h, ht]

/-- Every structural mutation either clears the whole cache or (on a failure
path) leaves both the cache and the element list untouched. -/
theorem applyMut_cache (s : NDState) (op : MutOp) :
    (applyMut s op).2.indexGroups = [] ∨
      ((applyMut s op).2.indexGroups = s.indexGroups ∧
        (applyMut s op).2.list = s.list) := by
  cases op with
  | append e =>
      simp only [applyMut]
      unfold ndAppend
      cases validateElements s.tuplelen [e] with
      | error er => simp
      | ok tl =>
          rcases ndEnsure_cases { s with tuplelen := tl } (s.list ++ [e]) with
            ⟨er, hq⟩ | ⟨u, hq⟩ <;> simp [hq]
  | extend es =>
      simp only [applyMut]
      unfold ndExtend
      cases validateElements s.tuplelen es with
      | error er => simp
      | ok tl =>
          rcases ndEnsure_cases { s with tuplelen := tl } (s.list ++ es) with
            ⟨er, hq⟩ | ⟨u, hq⟩ <;> simp [hq]
  | insert i e =>
      simp only [applyMut]
      unfold ndInsert
      cases validateElements s.tuplelen [e] with
      | error er => simp
      | ok tl =>
          rcases ndEnsure_cases { s with tuplelen := tl } (s.list ++ [e]) with
            ⟨er, hq⟩ | ⟨u, hq⟩ <;> simp [hq]
  | setIdx i e =>
      simp only [applyMut]
      unfold ndSetIdx
      cases validateElements s.tuplelen [e] with
      | error er => simp
      | ok tl =>
          rcases hj : pyIndex s.list.length i with _ | j
          · simp [hj]
          · rcases ndEnsure_cases { s with tuplelen := tl } (s.list.set j e) with
              ⟨er, hq⟩ | ⟨u, hq⟩ <;> simp [hj, hq]
  | setSlice sl es =>
      simp only [applyMut]
      unfold ndSetSlice
      cases validateElements s.tuplelen es with
      | error er => simp
      | ok tl =>
          rcases hps : pySetSlice s.list sl es with er | newList
          · simp [hps]
          · rcases ndEnsure_cases { s with tuplelen := tl } newList with
              ⟨er, hq⟩ | ⟨u, hq⟩ <;> simp [hps, hq]
  | delIdx i =>
      simp only [applyMut]
      unfold ndDelIdx
      rcases hj : pyIndex s.list.length i with _ | j
      · simp [hj]
      · rcases hq : ndRemoveElements s [s.list.getD j (PyVal.vint 0)] with ⟨r, s1⟩
        have hg : s1.indexGroups = [] := by
          have h0 := ndRemoveElements_groups s [s.list.getD j (PyVal.vint 0)]
          rw [hq] at h0
          exact h0
        rw [List.getD_eq_getElem?_getD] at hq
        cases r <;> simp [hj, hq, hg]
  | delSlice sl =>
      simp only [applyMut]
      unfold ndDelSlice
      cases sliceSelected s.list.length sl with
      | error er => simp
      | ok idxs =>
          rcases hq : ndRemoveElements s
              (idxs.map (fun i => s.list.getD i.toNat (PyVal.vint 0))) with ⟨r, s1⟩
          have hg : s1.indexGroups = [] := by
            have h0 := ndRemoveElements_groups s
              (idxs.map (fun i => s.list.getD i.toNat (PyVal.vint 0)))
            rw [hq] at h0
            exact h0
          simp only [List.getD_eq_getElem?_getD] at hq
          cases r <;> simp [hq, hg]
  | remove e =>
      simp only [applyMut]
      unfold ndRemove
      split
      · exact Or.inl (ndRemoveElements_groups _ _)
      · simp
  | pop i =>
      simp only [applyMut]
      unfold ndPop
      cases pyIndex s.list.length i with
      | none => simp
      | some j =>
          rcases hq : ndRemoveElements { s with list := s.list.eraseIdx j }
              [s.list.getD j (PyVal.vint 0)] with ⟨r, s1⟩
          have hg : s1.indexGroups = [] := by
            have h0 := ndRemoveElements_groups { s with list := s.list.eraseIdx j }
              [s.list.getD j (PyVal.vint 0)]
            rw [hq] at h0
            exact h0
          simp only [List.getD_eq_getElem?_getD] at hq
          cases r <;> simp [hq, hg]
  | clear =>
      simp only [applyMut]
      unfold ndClear
      simp
  | iadd es =>
      simp only [applyMut]
      unfold ndIadd
      by_cases hes : es.isEmpty
      · simp [hes]
      · simp only [hes, Bool.false_eq_true, if_false]
        cases validateElements s.tuplelen es with
        | error er => simp
        | ok tl =>
            rcases ndEnsure_cases { s with tuplelen := tl } (s.list ++ es) with
              ⟨er, hq⟩ | ⟨u, hq⟩ <;> simp [hq]

theorem groupbyND_cacheInv (s : NDState) (ix : List Int) (hinv : CacheInv s) :
    CacheInv (groupbyND s ix).2 := by
  rcases groupbyND_state s ix with h | h
  · rw [h]; exact hinv
  · rw [h]
    intro pr hpr
    rcases List.mem_append.1 hpr with hpr | hpr
    · exact hinv pr hpr
    · rw [List.mem_singleton.1 hpr]
      exact ⟨s.list, List.Perm.refl _, rfl⟩

theorem subsetND_post (s : NDState) (pat : List PyVal) :
    (subsetND s pat).2 = s ∨
      (subsetND s pat).2 = (groupbyND s (nonWildPositions 0 pat)).2 := by
  unfold subsetND
  repeat' split
  any_goals simp
  all_goals (repeat' split)
  all_goals simp

theorem squeezeND_post (s : NDState) (ix : List Int) (names : Option (List Nat)) :
    (squeezeND s ix names).2 = s ∨ (squeezeND s ix names).2 = (groupbyND s ix).2 := by
  unfold squeezeND
  repeat' split
  any_goals simp
  all_goals (repeat' split)
  all_goals simp

theorem subsetND_cacheInv (s : NDState) (pat : List PyVal) (hinv : CacheInv s) :
    CacheInv (subsetND s pat).2 := by
  rcases subsetND_post s pat with h | h
  · rw [h]; exact hinv
  · rw [h]; exact groupbyND_cacheInv s _ hinv

theorem squeezeND_cacheInv (s : NDState) (ix : List Int) (names : Option (List Nat))
    (hinv : CacheInv s) : CacheInv (squeezeND s ix names).2 := by
  rcases squeezeND_post s ix names with h | h
  · rw [h]; exact hinv
  · rw [h]; exact groupbyND_cacheInv s ix hinv

theorem leNDLoop_cacheInv (sets : List OneDState) : ∀ (s : NDState) (i : Nat),
    CacheInv s → CacheInv (leNDLoop s sets i).2 := by
  induction sets with
  | nil => intro s i h; exact h
  | cons vals rest ih =>
      intro s i h
      have hsq := squeezeND_cacheInv s [(i : Int)] none h
      unfold leNDLoop
      rcases hq : squeezeND s [(i : Int)] none with ⟨r, s1⟩
      rw [hq] at hsq
      cases r with
      | error er => exact hsq
      | ok v =>
          cases v with
          | inl od =>
              by_cases hsub : od.set ⊆ vals.set
              · simp only [if_pos hsub]
                exact ih s1 (i + 1) hsq
              · simp only [if_neg hsub]
                exact hsq
          | inr t => exact hsq

theorem leND_cacheInv (s : NDState) (other : Operand) (hinv : CacheInv s) :
    CacheInv (leND s other).2 := by
  unfold leND
  repeat' split
  all_goals first
    | exact hinv
    | exact leNDLoop_cacheInv _ s 0 hinv

theorem perm_orderedInsertB (a : PyVal) (l : List PyVal) :
    (orderedInsertB a l).Perm (a :: l) := by
  induction l with
  | nil => exact List.Perm.refl _
  | cons b l ih =>
    unfold orderedInsertB
    split
    · exact List.Perm.refl _
    · exact (ih.cons b).trans (List.Perm.swap a b l)

theorem perm_insertionSortB (l : List PyVal) : (insertionSortB l).Perm l := by
  induction l with
  | nil => exact List.Perm.refl _
  | cons a l ih =>
    exact (perm_orderedInsertB a (insertionSortB l)).trans (ih.cons a)

theorem ndSort_cacheInv (s : NDState) (rev : Bool) (hinv : CacheInv s) :
    CacheInv (ndSort s rev).2 := by
  unfold ndSort
  split
  · refine cacheInv_same hinv rfl ?_
    cases rev
    · simpa using perm_insertionSortB s.list
    · have h1 : (insertionSortB s.list.reverse).Perm s.list.reverse :=
        perm_insertionSortB s.list.reverse
      have h2 : (insertionSortB s.list.reverse).reverse.Perm
          (insertionSortB s.list.reverse) := List.reverse_perm _
      simpa using h2.trans (h1.trans (List.reverse_perm s.list))
  · exact hinv

theorem ndReverse_cacheInv (s : NDState) (hinv : CacheInv s) :
    CacheInv (ndReverse s) := by
  exact cacheInv_same hinv rfl (List.reverse_perm _)

/-- One step of any operation preserves cache coherence. -/
theorem applyFull_cacheInv (s : NDState) (op : NDOp) (hinv : CacheInv s) :
    CacheInv (applyFull s op) := by
  cases op with
  | mutate m =>
      rcases applyMut_cache s m with h | ⟨hg, hl⟩
      · exact cacheInv_of_empty h
      · exact cacheInv_same hinv hg (hl ▸ List.Perm.refl _)
  | sortOp rev => exact ndSort_cacheInv s rev hinv
  | reverseOp => exact ndReverse_cacheInv s hinv
  | subsetQ pat => exact subsetND_cacheInv s pat hinv
  | squeezeQ ix names => exact squeezeND_cacheInv s ix names hinv
  | leQ other => exact leND_cacheInv s other hinv
  | setNames names => exact cacheInv_same hinv rfl (List.Perm.refl _)

theorem ndSuperInit_groups (elems : List PyVal) (names : Option (List Nat))
    (s : NDState) (h : ndSuperInit elems names = .ok s) : s.indexGroups = [] := by
  unfold ndSuperInit at h
  rcases hv : validateElements none elems with er | tl
  · rw [hv] at h
    cases h
  · rw [hv] at h
    dsimp only at h
    by_cases hc : elems.toFinset.card < elems.length
    · rw [if_pos hc] at h
      cases h
    · rw [if_neg hc] at h
      have h2 := Except.ok.inj h
      rw [← h2]

theorem ndInitSingle_groups (elems : List PyVal) (names : Option (List Nat))
    (s : NDState) (h : ndInitSingle elems names = .ok s) : s.indexGroups = [] := by
  unfold ndInitSingle at h
  by_cases he : (singleElems elems).isEmpty
  · simp only [he, if_true] at h
    have h2 := Except.ok.inj h
    rw [← h2]
    rfl
  · simp only [he, Bool.false_eq_true, if_false] at h
    exact ndSuperInit_groups _ names s h

theorem ndInitMulti_groups (its : List (List PyVal)) (names : Option (List Nat))
    (s : NDState) (h : ndInitMulti its names = .ok s) : s.indexGroups = [] := by
  unfold ndInitMulti at h
  by_cases he : (multiElems its).isEmpty
  · simp only [he, if_true] at h
    have h2 := Except.ok.inj h
    rw [← h2]
    rfl
  · simp only [he, Bool.false_eq_true, if_false] at h
    exact ndSuperInit_groups _ names s h

/-- Every reachable state satisfies cache coherence. -/
theorem reachable_cacheInv {s : NDState} (h : ReachableND s) : CacheInv s := by
  induction h with
  | init1 elems names s h => exact cacheInv_of_empty (ndInitSingle_groups elems names s h)
  | initM its names s h => exact cacheInv_of_empty (ndInitMulti_groups its names s h)
  | step s op _ ih => exact applyFull_cacheInv s op ih

/-! ### Success characterisations of `subset`, the constructors and
`squeeze` -/

/-- Whenever `subset` returns under a fresh cache, it returns exactly the
reference comprehension over the current list. -/
theorem subsetND_fresh_ok (s : NDState) (pat : List PyVal) (res : List PyVal)
    (hfresh : CacheFresh s) (h : (subsetND s pat).1 = .ok res) :
    res = subsetSpec s.list pat := by
  unfold subsetND at h
  by_cases h1 : s.list.isEmpty
  · simp [h1] at h
  · simp only [h1, Bool.false_eq_true, if_false] at h
    by_cases h2 : pat.any PyVal.isIterNonStr
    · simp [h2] at h
    · simp only [h2, Bool.false_eq_true, if_false] at h
      rcases ht : s.tuplelen with _ | w
      · rw [ht] at h
        simp at h
      · rw [ht] at h
        dsimp only at h
        by_cases h3 : pat.length ≠ w
        · rw [if_pos h3] at h
          simp at h
        · rw [if_neg h3] at h
          by_cases h4 : (nonWildPositions 0 pat).length = 0
          · rw [if_pos h4] at h
            simp at h
          · rw [if_neg h4] at h
            by_cases h5 : (nonWildPositions 0 pat).length = w
            · rw [if_pos h5] at h
              simp at h
            · rw [if_neg h5] at h
              rw [← Except.ok.inj h, groupbyND_group_fresh s _ hfresh,
                groupGet_buildGroup, filter_projKey_eq_subsetSpec]

theorem oneDInit_ok (elems : List PyVal) (name : Option Nat)
    (h1 : elems.any PyVal.isIterNonStr = false) (h2 : elems.Nodup) :
    oneDInit elems name = .ok { list := elems, set := elems.toFinset, name := name } := by
  unfold oneDInit checkAllscalars oneDEnsureNoDuplicates
  have h3 : ¬ elems.toFinset.card < elems.length := by
    rw [List.toFinset_card_of_nodup h2]
    omega
  simp only [h1, Bool.false_eq_true, if_false, h3]

/-- A successful `IndexSet1D` construction stores exactly the given
elements. -/
theorem oneDInit_list (elems : List PyVal) (name : Option Nat) (od : OneDState)
    (h : oneDInit elems name = .ok od) :
    od.list = elems ∧ od.set = elems.toFinset ∧ od.name = name := by
  unfold oneDInit at h
  rcases hc : checkAllscalars elems with er | u
  · rw [hc] at h
    cases h
  · rw [hc] at h
    dsimp only at h
    unfold oneDEnsureNoDuplicates at h
    by_cases hd : elems.toFinset.card < elems.length
    · rw [if_pos hd] at h
      cases h
    · rw [if_neg hd] at h
      dsimp only at h
      rw [← Except.ok.inj h]
      exact ⟨rfl, rfl, rfl⟩

theorem ndSuperInit_ok_fields (elems : List PyVal) (names : Option (List Nat))
    (t : NDState) (h : ndSuperInit elems names = .ok t) :
    t.list = elems ∧ t.set = elems.toFinset ∧ t.indexGroups = [] ∧
      t.names = names ∧ validateElements none elems = .ok t.tuplelen := by
  unfold ndSuperInit at h
  rcases hv : validateElements none elems with er | tl
  · rw [hv] at h
    cases h
  · rw [hv] at h
    dsimp only at h
    by_cases hc : elems.toFinset.card < elems.length
    · rw [if_pos hc] at h
      cases h
    · rw [if_neg hc] at h
      rw [← Except.ok.inj h]
      exact ⟨rfl, rfl, rfl, rfl, rfl⟩

/-- A successful `IndexSetND` construction from one iterable stores the
(possibly tuple-coerced) elements. -/
theorem ndInitSingle_list (elems : List PyVal) (names : Option (List Nat))
    (t : NDState) (h : ndInitSingle elems names = .ok t) :
    t.list = singleElems elems := by
  unfold ndInitSingle at h
  by_cases he : (singleElems elems).isEmpty
  · simp only [he, if_true] at h
    rw [← Except.ok.inj h]
    exact (List.isEmpty_iff.1 he).symm
  · simp only [he, Bool.false_eq_true, if_false] at h
    exact (ndSuperInit_ok_fields _ _ _ h).1

/-- A successful `IndexSetND` construction from several iterables stores
the product elements. -/
theorem ndInitMulti_list (its : List (List PyVal)) (names : Option (List Nat))
    (t : NDState) (h : ndInitMulti its names = .ok t) :
    t.list = multiElems its := by
  unfold ndInitMulti at h
  by_cases he : (multiElems its).isEmpty
  · simp only [he, if_true] at h
    rw [← Except.ok.inj h]
    exact (List.isEmpty_iff.1 he).symm
  · simp only [he, Bool.false_eq_true, if_false] at h
    exact (ndSuperInit_ok_fields _ _ _ h).1

theorem singleElems_of_tuples (elems : List PyVal)
    (h : ∀ e ∈ elems, ∃ xs, e = PyVal.vtup xs) : singleElems elems = elems := by
  unfold singleElems
  cases elems with
  | nil => simp
  | cons e rest =>
      obtain ⟨xs, hx⟩ := h e (by simp)
      subst hx
      simp [PyVal.isNonTupleCollection]

theorem validateElements_none_ok (elems : List PyVal) (m : Nat) (hne : elems ≠ [])
    (htup : ∀ e ∈ elems, ∃ xs, e = PyVal.vtup xs)
    (hlen : ∀ e ∈ elems, pyLen e = m) :
    validateElements none elems = .ok (some m) := by
  unfold validateElements checkAlltuples checkTuplelen
  have h1 : elems.any (fun x => !x.isTuple) = false := by
    rw [List.any_eq_false]
    intro e he
    obtain ⟨xs, hx⟩ := htup e he
    subst hx
    simp [PyVal.isTuple]
  have h2 : ¬ 1 < (elems.map pyLen).toFinset.card := by
    have hsub : (elems.map pyLen).toFinset ⊆ {m} := by
      intro x hx
      simp only [List.mem_toFinset, List.mem_map] at hx
      obtain ⟨e, he, hxe⟩ := hx
      simp [← hxe, hlen e he]
    have := Finset.card_le_card hsub
    simp only [Finset.card_singleton] at this
    omega
  simp only [h1, Bool.false_eq_true, if_false, h2]
  cases elems with
  | nil => exact absurd rfl hne
  | cons e rest => simp [hlen e (by simp)]

/-- A batch of same-width duplicate-free tuples constructs successfully,
and the constructed state is fully determined. -/
theorem ndInitSingle_tuples_ok (elems : List PyVal) (names : Option (List Nat))
    (m : Nat) (hne : elems ≠ [])
    (htup : ∀ e ∈ elems, ∃ xs, e = PyVal.vtup xs)
    (hlen : ∀ e ∈ elems, pyLen e = m) (hnd : elems.Nodup) :
    ndInitSingle elems names =
      .ok { list := elems, set := elems.toFinset, tuplelen := some m,
            indexGroups := [], names := names } := by
  unfold ndInitSingle
  rw [singleElems_of_tuples elems htup]
  have he : elems.isEmpty = false := by
    cases elems
    · exact absurd rfl hne
    · rfl
  simp only [he, Bool.false_eq_true, if_false]
  unfold ndSuperInit
  rw [validateElements_none_ok elems m hne htup hlen]
  have hc : ¬ elems.toFinset.card < elems.length := by
    rw [List.toFinset_card_of_nodup hnd]
    omega
  simp only [hc, if_false]

theorem scalarTuples_spec (l : List PyVal) (w : Nat) (h : scalarTuples l w = true) :
    ∀ e ∈ l, ∃ xs, e = PyVal.vtup xs ∧ xs.length = w ∧
      ∀ v ∈ xs, v.isIterNonStr = false := by
  intro e he
  have := List.all_eq_true.1 h e he
  cases e with
  | vtup xs =>
      simp only [Bool.and_eq_true, decide_eq_true_eq, List.all_eq_true] at this
      refine ⟨xs, rfl, this.1, fun v hv => ?_⟩
      have := this.2 v hv
      simp only [Bool.not_eq_true'] at this
      exact this
  | vint a => simp at this
  | vstr a => simp at this
  | vlist a => simp at this

theorem squeezeSpec_ne_nil (l : List PyVal) (ix : List Int) (hne : l ≠ []) :
    squeezeSpec l ix ≠ [] := by
  cases l with
  | nil => exact absurd rfl hne
  | cons e rest =>
      intro hcontra
      have hmem : projKey ix e ∈ squeezeSpec (e :: rest) ix :=
        (mem_squeezeSpec _ _ _).2 ⟨e, by simp, rfl⟩
      rw [hcontra] at hmem
      cases hmem

theorem mem_squeezeSpec_length (l : List PyVal) (ix : List Int) (k : List PyVal)
    (hk : k ∈ squeezeSpec l ix) : k.length = ix.length := by
  obtain ⟨e, _, he⟩ := (mem_squeezeSpec l ix k).1 hk
  rw [← he, length_projKey]

/-- The `IndexSet1D` built by a single-index squeeze under a fresh cache
holds the heads of the first-occurrence projected keys. -/
theorem oneDInit_keys_list (s : NDState) (ix : List Int) (name : Option Nat)
    (od : OneDState) (hfresh : CacheFresh s)
    (hi : oneDInit ((groupbyND s ix).1.map (fun pr => pr.1.headD (PyVal.vint 0))) name =
      .ok od) :
    od.list = (squeezeSpec s.list ix).map (fun k => k.headD (PyVal.vint 0)) := by
  have hl := (oneDInit_list _ _ _ hi).1
  rw [hl, groupbyND_group_fresh s ix hfresh, ← groupKeys_buildGroup ix s.list]
  simp [groupKeys, List.map_map]

/-- The `IndexSetND` built by a multi-index squeeze under a fresh cache
holds the first-occurrence projected key tuples. -/
theorem ndInit_keys_list (s : NDState) (ix : List Int) (names : Option (List Nat))
    (t : NDState) (hfresh : CacheFresh s)
    (hi : ndInitSingle ((groupbyND s ix).1.map (fun pr => PyVal.vtup pr.1)) names =
      .ok t) :
    t.list = (squeezeSpec s.list ix).map PyVal.vtup := by
  have hl := ndInitSingle_list _ _ _ hi
  rw [hl, singleElems_of_tuples _ ?_, groupbyND_group_fresh s ix hfresh,
    ← groupKeys_buildGroup ix s.list]
  · simp [groupKeys, List.map_map]
  · intro e he
    simp only [List.mem_map] at he
    obtain ⟨pr, _, hpr⟩ := he
    exact ⟨pr.1, hpr.symm⟩

/-- Whenever `squeeze` returns under a fresh cache, the returned container
holds exactly the first-occurrence projected keys of the current list. -/
theorem squeezeND_fresh_ok (s : NDState) (ix : List Int) (names : Option (List Nat))
    (r : OneDState ⊕ NDState) (hfresh : CacheFresh s)
    (h : (squeezeND s ix names).1 = .ok r) :
    (∀ od, r = Sum.inl od →
        od.list = (squeezeSpec s.list ix).map (fun k => k.headD (PyVal.vint 0))) ∧
    (∀ t, r = Sum.inr t → t.list = (squeezeSpec s.list ix).map PyVal.vtup) := by
  unfold squeezeND at h
  by_cases h1 : s.list.isEmpty
  · simp [h1] at h
  · simp only [h1, Bool.false_eq_true, if_false] at h
    by_cases h2 : ix.isEmpty
    · simp [h2] at h
    · simp only [h2, Bool.false_eq_true, if_false] at h
      rcases ht : s.tuplelen with _ | w
      · rw [ht] at h
        simp at h
      · rw [ht] at h
        dsimp only at h
        by_cases h3 : ix.any (fun i => decide (i < 0) || decide ((w : Int) ≤ i))
        · simp [h3] at h
        · simp only [h3, Bool.false_eq_true, if_false] at h
          by_cases h4 : ix.length = w
          · rw [if_pos h4] at h
            simp at h
          · rw [if_neg h4] at h
            by_cases h5 : 1 < ix.length
            · rw [if_pos h5] at h
              rcases hi : ndInitSingle
                  ((groupbyND s ix).1.map (fun pr => PyVal.vtup pr.1)) names with er | t
              · rw [hi] at h
                simp at h
              · rw [hi] at h
                dsimp only at h
                have hr := Except.ok.inj h
                constructor
                · intro od hod
                  rw [← hr] at hod
                  cases hod
                · intro t2 ht2
                  rw [← hr] at ht2
                  rw [← Sum.inr.inj ht2]
                  exact ndInit_keys_list s ix names t hfresh hi
            · rw [if_neg h5] at h
              rcases names with _ | ns
              · dsimp only at h
                rcases hi : oneDInit
                    ((groupbyND s ix).1.map (fun pr => pr.1.headD (PyVal.vint 0)))
                    none with er | od
                · rw [hi] at h
                  simp at h
                · rw [hi] at h
                  dsimp only at h
                  have hr := Except.ok.inj h
                  constructor
                  · intro od2 hod
                    rw [← hr] at hod
                    rw [← Sum.inl.inj hod]
                    exact oneDInit_keys_list s ix none od hfresh hi
                  · intro t2 ht2
                    rw [← hr] at ht2
                    cases ht2
              · rcases ns with _ | ⟨n1, ns'⟩
                · dsimp only at h
                  rcases hi : oneDInit
                      ((groupbyND s ix).1.map (fun pr => pr.1.headD (PyVal.vint 0)))
                      none with er | od
                  · rw [hi] at h
                    simp at h
                  · rw [hi] at h
                    dsimp only at h
                    have hr := Except.ok.inj h
                    constructor
                    · intro od2 hod
                      rw [← hr] at hod
                      rw [← Sum.inl.inj hod]
                      exact oneDInit_keys_list s ix none od hfresh hi
                    · intro t2 ht2
                      rw [← hr] at ht2
                      cases ht2
                · rcases ns' with _ | ⟨n2, ns''⟩
                  · dsimp only at h
                    rcases hi : oneDInit
                        ((groupbyND s ix).1.map (fun pr => pr.1.headD (PyVal.vint 0)))
                        (some n1) with er | od
                    · rw [hi] at h
                      simp at h
                    · rw [hi] at h
                      dsimp only at h
                      have hr := Except.ok.inj h
                      constructor
                      · intro od2 hod
                        rw [← hr] at hod
                        rw [← Sum.inl.inj hod]
                        exact oneDInit_keys_list s ix (some n1) od hfresh hi
                      · intro t2 ht2
                        rw [← hr] at ht2
                        cases ht2
                  · dsimp only at h
                    simp at h

/-- A `squeeze` call with a valid choice of dimension indices reaches the
construction of the result container. -/
theorem squeezeND_checks (s : NDState) (ix : List Int) (names : Option (List Nat))
    (w : Nat) (hne : s.list ≠ []) (hw : s.tuplelen = some w) (hixne : ix ≠ [])
    (hrange : ∀ i ∈ ix, 0 ≤ i ∧ i < (w : Int)) (hlen : ix.length ≠ w) :
    squeezeND s ix names =
      (let p := groupbyND s ix
       if 1 < ix.length then
         match ndInitSingle (p.1.map (fun pr => PyVal.vtup pr.1)) names with
         | .error er => (.error er, p.2)
         | .ok t => (.ok (.inr t), p.2)
       else
         match names with
         | some (_ :: _ :: _) => (.error .namesLengthInvalid, p.2)
         | _ =>
             let name : Option Nat :=
               match names with
               | some (n :: _) => some n
               | _ => none
             match oneDInit (p.1.map (fun pr => pr.1.headD (PyVal.vint 0))) name with
             | .error er => (.error er, p.2)
             | .ok t => (.ok (.inl t), p.2)) := by
  unfold squeezeND
  have h1 : s.list.isEmpty = false := by
    rcases hl : s.list with _ | ⟨a, l⟩
    · exact absurd hl hne
    · simp [hl]
  have h2 : ix.isEmpty = false := by
    rcases hl : ix with _ | ⟨a, l⟩
    · exact absurd hl hixne
    · simp [hl]
  have h3 : ix.any (fun i => decide (i < 0) || decide ((w : Int) ≤ i)) = false := by
    rw [List.any_eq_false]
    intro i hi
    obtain ⟨ha, hb⟩ := hrange i hi
    simp [not_lt.2 ha, not_le.2 hb]
  rw [hw]
  simp only [h1, h2, h3, Bool.false_eq_true, if_false, hlen]

/-- A multi-index squeeze under a fresh cache returns the `IndexSetND` of
the first-occurrence projected key tuples of the current list. -/
theorem squeezeND_multi_ok (s : NDState) (ix : List Int) (w : Nat)
    (hfresh : CacheFresh s) (hne : s.list ≠ []) (hw : s.tuplelen = some w)
    (hm : 2 ≤ ix.length) (hlen : ix.length < w)
    (hrange : ∀ i ∈ ix, 0 ≤ i ∧ i < (w : Int)) :
    (squeezeND s ix none).1 = .ok (Sum.inr
      { list := (squeezeSpec s.list ix).map PyVal.vtup,
        set := ((squeezeSpec s.list ix).map PyVal.vtup).toFinset,
        tuplelen := some ix.length, indexGroups := [], names := none }) := by
  have hxne : ix ≠ [] := by
    intro hc
    rw [hc] at hm
    simp at hm
  rw [squeezeND_checks s ix none w hne hw hxne hrange (Nat.ne_of_lt hlen)]
  dsimp only
  rw [if_pos (by omega : 1 < ix.length)]
  have harg : (groupbyND s ix).1.map (fun pr => PyVal.vtup pr.1) =
      (squeezeSpec s.list ix).map PyVal.vtup := by
    rw [groupbyND_group_fresh s ix hfresh, ← groupKeys_buildGroup ix s.list]
    simp [groupKeys, List.map_map]
  rw [harg]
  rw [ndInitSingle_tuples_ok _ none ix.length ?hne2 ?htup ?hlen2 ?hnd]
  case hne2 =>
    intro hc
    exact squeezeSpec_ne_nil s.list ix hne (by simpa using hc)
  case htup =>
    intro e he
    simp only [List.mem_map] at he
    obtain ⟨k, _, hk⟩ := he
    exact ⟨k, hk.symm⟩
  case hlen2 =>
    intro e he
    simp only [List.mem_map] at he
    obtain ⟨k, hk, hke⟩ := he
    rw [← hke]
    simpa [pyLen] using mem_squeezeSpec_length s.list ix k hk
  case hnd =>
    exact List.Nodup.map (fun a b h => PyVal.vtup.inj h) (squeezeSpec_nodup _ _)

/-- A single-index squeeze under a fresh cache returns the `IndexSet1D` of
the first-occurrence projected values of the current list. -/
theorem squeezeND_one_ok (s : NDState) (i : Int) (w : Nat)
    (hfresh : CacheFresh s) (hne : s.list ≠ []) (hw : s.tuplelen = some w)
    (hscal : scalarTuples s.list w = true) (h0 : 0 ≤ i) (hiw : i < (w : Int))
    (h1w : 1 < w) :
    (squeezeND s [i] none).1 = .ok (Sum.inl
      { list := (squeezeSpec s.list [i]).map (fun k => k.headD (PyVal.vint 0)),
        set := ((squeezeSpec s.list [i]).map (fun k => k.headD (PyVal.vint 0))).toFinset,
        name := none }) := by
  have hrange : ∀ j ∈ ([i] : List Int), 0 ≤ j ∧ j < (w : Int) := by
    intro j hj
    rw [List.mem_singleton.1 hj]
    exact ⟨h0, hiw⟩
  have hlen1 : ([i] : List Int).length ≠ w := by
    simp only [List.length_singleton]
    omega
  rw [squeezeND_checks s [i] none w hne hw (by simp) hrange hlen1]
  dsimp only
  rw [if_neg (by simp : ¬ 1 < ([i] : List Int).length)]
  have harg : (groupbyND s [i]).1.map (fun pr => pr.1.headD (PyVal.vint 0)) =
      (squeezeSpec s.list [i]).map (fun k => k.headD (PyVal.vint 0)) := by
    rw [groupbyND_group_fresh s _ hfresh, ← groupKeys_buildGroup]
    simp [groupKeys, List.map_map]
  rw [harg]
  rw [oneDInit_ok _ none ?hsc ?hnd1]
  case hsc =>
    rw [List.any_eq_false]
    intro x hx
    simp only [List.mem_map] at hx
    obtain ⟨k, hk, hkx⟩ := hx
    obtain ⟨e, hel, hke⟩ := (mem_squeezeSpec _ _ _).1 hk
    obtain ⟨xs, hxs, hxl, hxsc⟩ := scalarTuples_spec _ _ hscal e hel
    subst hxs
    rw [← hke] at hkx
    have hilt : i.toNat < xs.length := by
      rw [hxl]
      have hcast : (i.toNat : Int) < (w : Int) := by
        rw [Int.toNat_of_nonneg h0]
        exact hiw
      exact_mod_cast hcast
    rw [← hkx, Bool.not_eq_true]
    show (pyTupleGet (PyVal.vtup xs) i).isIterNonStr = false
    rw [show pyTupleGet (PyVal.vtup xs) i = xs.getD i.toNat (PyVal.vint 0) from rfl,
      List.getD_eq_getElem xs _ hilt]
    exact hxsc _ (List.getElem_mem hilt)
  case hnd1 =>
    apply List.Nodup.map_on ?_ (squeezeSpec_nodup _ _)
    intro k1 hk1 k2 hk2 heq
    obtain ⟨a, ha⟩ :=
      List.length_eq_one.1 (by simpa using mem_squeezeSpec_length _ _ _ hk1)
    obtain ⟨b, hb⟩ :=
      List.length_eq_one.1 (by simpa using mem_squeezeSpec_length _ _ _ hk2)
    subst ha
    subst hb
    simpa using heq

/-! ### Successful mutations always clear the cache -/

theorem ndEnsure_commit_cases (s1 : NDState) (elems : List PyVal) (u : Finset PyVal)
    (s2 : NDState) (h : ndEnsureNoDuplicates s1 elems = (.ok u, s2)) :
    s2.indexGroups = [] := by
  unfold ndEnsureNoDuplicates at h
  by_cases hc : elems.toFinset.card < elems.length
  · rw [if_pos hc] at h
    simp at h
  · rw [if_neg hc] at h
    have h2 := congrArg Prod.snd h
    dsimp only at h2
    rw [← h2]

theorem ndRemoveElements_eq_groups (s1 : NDState) (elems : List PyVal)
    (r : Except PyErr Unit) (s2 : NDState)
    (h : ndRemoveElements s1 elems = (r, s2)) : s2.indexGroups = [] := by
  have h0 := ndRemoveElements_groups s1 elems
  rw [h] at h0
  exact h0

/-- A successful structural mutation other than an empty in-place
concatenation leaves the grouping cache empty. -/
theorem applyMut_ok_cache (s : NDState) (op : MutOp) (s' : NDState)
    (hop : ∀ es, op = MutOp.iadd es → es ≠ [])
    (h : applyMut s op = (.ok (), s')) : s'.indexGroups = [] := by
  cases op with
  | append e =>
      simp only [applyMut] at h
      unfold ndAppend at h
      rcases hv : validateElements s.tuplelen [e] with er | tl
      · rw [hv] at h
        simp at h
      · rw [hv] at h
        dsimp only at h
        rcases hq : ndEnsureNoDuplicates { s with tuplelen := tl } (s.list ++ [e])
          with ⟨r2, s2⟩
        rw [hq] at h
        cases r2 with
        | error er => simp at h
        | ok u =>
            dsimp only at h
            have h2 := congrArg Prod.snd h
            dsimp only at h2
            rw [← h2]
            exact ndEnsure_commit_cases _ _ u s2 hq
  | extend es =>
      simp only [applyMut] at h
      unfold ndExtend at h
      rcases hv : validateElements s.tuplelen es with er | tl
      · rw [hv] at h
        simp at h
      · rw [hv] at h
        dsimp only at h
        rcases hq : ndEnsureNoDuplicates { s with tuplelen := tl } (s.list ++ es)
          with ⟨r2, s2⟩
        rw [hq] at h
        cases r2 with
        | error er => simp at h
        | ok u =>
            dsimp only at h
            have h2 := congrArg Prod.snd h
            dsimp only at h2
            rw [← h2]
            exact ndEnsure_commit_cases _ _ u s2 hq
  | insert i e =>
      simp only [applyMut] at h
      unfold ndInsert at h
      rcases hv : validateElements s.tuplelen [e] with er | tl
      · rw [hv] at h
        simp at h
      · rw [hv] at h
        dsimp only at h
        rcases hq : ndEnsureNoDuplicates { s with tuplelen := tl } (s.list ++ [e])
          with ⟨r2, s2⟩
        rw [hq] at h
        cases r2 with
        | error er => simp at h
        | ok u =>
            dsimp only at h
            have h2 := congrArg Prod.snd h
            dsimp only at h2
            rw [← h2]
            exact ndEnsure_commit_cases _ _ u s2 hq
  | setIdx i e =>
      simp only [applyMut] at h
      unfold ndSetIdx at h
      rcases hv : validateElements s.tuplelen [e] with er | tl
      · rw [hv] at h
        simp at h
      · rw [hv] at h
        dsimp only at h
        rcases hj : pyIndex s.list.length i with _ | j
        · rw [hj] at h
          simp at h
        · rw [hj] at h
          dsimp only at h
          rcases hq : ndEnsureNoDuplicates { s with tuplelen := tl } (s.list.set j e)
            with ⟨r2, s2⟩
          rw [hq] at h
          cases r2 with
          | error er => simp at h
          | ok u =>
              dsimp only at h
              have h2 := congrArg Prod.snd h
              dsimp only at h2
              rw [← h2]
              exact ndEnsure_commit_cases _ _ u s2 hq
  | setSlice sl es =>
      simp only [applyMut] at h
      unfold ndSetSlice at h
      rcases hv : validateElements s.tuplelen es with er | tl
      · rw [hv] at h
        simp at h
      · rw [hv] at h
        dsimp only at h
        rcases hps : pySetSlice s.list sl es with er | newList
        · rw [hps] at h
          simp at h
        · rw [hps] at h
          dsimp only at h
          rcases hq : ndEnsureNoDuplicates { s with tuplelen := tl } newList
            with ⟨r2, s2⟩
          rw [hq] at h
          cases r2 with
          | error er => simp at h
          | ok u =>
              dsimp only at h
              have h2 := congrArg Prod.snd h
              dsimp only at h2
              rw [← h2]
              exact ndEnsure_commit_cases _ _ u s2 hq
  | delIdx i =>
      simp only [applyMut] at h
      unfold ndDelIdx at h
      rcases hj : pyIndex s.list.length i with _ | j
      · rw [hj] at h
        simp at h
      · rw [hj] at h
        dsimp only at h
        rcases hq : ndRemoveElements s [s.list.getD j (PyVal.vint 0)] with ⟨r2, s2⟩
        rw [hq] at h
        have hg := ndRemoveElements_eq_groups _ _ _ _ hq
        cases r2 with
        | error er => simp at h
        | ok u =>
            dsimp only at h
            have h2 := congrArg Prod.snd h
            dsimp only at h2
            rw [← h2]
            exact hg
  | delSlice sl =>
      simp only [applyMut] at h
      unfold ndDelSlice at h
      rcases hi : sliceSelected s.list.length sl with er | idxs
      · rw [hi] at h
        simp at h
      · rw [hi] at h
        dsimp only at h
        rcases hq : ndRemoveElements s
            (idxs.map (fun i => s.list.getD i.toNat (PyVal.vint 0))) with ⟨r2, s2⟩
        rw [hq] at h
        have hg := ndRemoveElements_eq_groups _ _ _ _ hq
        cases r2 with
        | error er => simp at h
        | ok u =>
            dsimp only at h
            have h2 := congrArg Prod.snd h
            dsimp only at h2
            rw [← h2]
            exact hg
  | remove e =>
      simp only [applyMut] at h
      unfold ndRemove at h
      by_cases hm : e ∈ s.list
      · rw [if_pos hm] at h
        exact ndRemoveElements_eq_groups _ _ _ _ h
      · rw [if_neg hm] at h
        simp at h
  | pop i =>
      simp only [applyMut] at h
      unfold ndPop at h
      rcases hj : pyIndex s.list.length i with _ | j
      · rw [hj] at h
        simp at h
      · rw [hj] at h
        dsimp only at h
        rcases hq : ndRemoveElements { s with list := s.list.eraseIdx j }
            [s.list.getD j (PyVal.vint 0)] with ⟨r2, s2⟩
        rw [hq] at h
        have hg := ndRemoveElements_eq_groups _ _ _ _ hq
        cases r2 with
        | error er => simp at h
        | ok u =>
            dsimp only at h
            have h2 := congrArg Prod.snd h
            dsimp only at h2
            rw [← h2]
            exact hg
  | clear =>
      simp only [applyMut] at h
      have h2 := congrArg Prod.snd h
      dsimp only at h2
      rw [← h2]
      unfold ndClear
      rfl
  | iadd es =>
      simp only [applyMut] at h
      unfold ndIadd at h
      by_cases hes : es.isEmpty
      · exact absurd (List.isEmpty_iff.1 hes) (hop es rfl)
      · simp only [hes, Bool.false_eq_true, if_false] at h
        rcases hv : validateElements s.tuplelen es with er | tl
        · rw [hv] at h
          simp at h
        · rw [hv] at h
          dsimp only at h
          rcases hq : ndEnsureNoDuplicates { s with tuplelen := tl } (s.list ++ es)
            with ⟨r2, s2⟩
          rw [hq] at h
          cases r2 with
          | error er => simp at h
          | ok u =>
              dsimp only at h
              have h2 := congrArg Prod.snd h
              dsimp only at h2
              rw [← h2]
              exact ndEnsure_commit_cases _ _ u s2 hq

/-! ### The Cartesian-product constructor -/

/-- The rows of the product are exactly the pick-one-per-iterable lists. -/
theorem mem_cartProd (its : List (List PyVal)) (r : List PyVal) :
    r ∈ cartProd its ↔ List.Forall₂ (fun v l => v ∈ l) r its := by
  induction its generalizing r with
  | nil => simp [cartProd, List.forall₂_nil_right_iff]
  | cons l ls ih =>
      simp only [cartProd, List.mem_flatMap, List.mem_map]
      constructor
      · rintro ⟨x, hx, r', hr', rfl⟩
        exact List.Forall₂.cons hx ((ih r').1 hr')
      · intro hf
        cases hf with
        | cons hv hrest => exact ⟨_, hv, _, (ih _).2 hrest, rfl⟩

theorem flattenRow_cons (v : PyVal) (rest : List PyVal) :
    flattenRow (v :: rest) = flattenItem v ++ flattenRow rest := by
  cases v <;> simp [flattenRow, flattenVal, flattenItem]

theorem flattenRow_length (r : List PyVal) :
    (flattenRow r).length = (r.map (fun v => (flattenItem v).length)).sum := by
  induction r with
  | nil => simp [flattenRow]
  | cons v rest ih => simp [flattenRow_cons, ih]

theorem widthsContributed_spec (its : List (List PyVal)) (ws : List Nat)
    (h : widthsContributed its ws = true) :
    its.length = ws.length ∧
      ∀ p ∈ its.zip ws, ∀ v ∈ p.1, (flattenItem v).length = p.2 := by
  unfold widthsContributed at h
  simp only [Bool.and_eq_true, decide_eq_true_eq, List.all_eq_true] at h
  exact ⟨h.1, fun p hp v hv => h.2 p hp v hv⟩

/-- With a fixed contributed width per iterable, every product row flattens
to the sum of the contributed widths. -/
theorem row_width (its : List (List PyVal)) (ws : List Nat) (r : List PyVal)
    (hlen : its.length = ws.length)
    (hw : ∀ p ∈ its.zip ws, ∀ v ∈ p.1, (flattenItem v).length = p.2)
    (hr : List.Forall₂ (fun v l => v ∈ l) r its) :
    (r.map (fun v => (flattenItem v).length)).sum = ws.sum := by
  induction hr generalizing ws with
  | nil =>
      cases ws with
      | nil => simp
      | cons w ws' => simp at hlen
  | @cons v l r' ls hv hrest ih =>
      cases ws with
      | nil => simp at hlen
      | cons w ws' =>
          simp only [List.map_cons, List.sum_cons]
          have h1 : (flattenItem v).length = w := hw (l, w) (by simp) v hv
          rw [h1, ih ws' (by simpa using hlen) (fun p hp v2 hv2 => hw p (by simp [hp]) v2 hv2)]

theorem sum_map_ones {α : Type} (l : List α) (f : α → Nat)
    (h : ∀ v ∈ l, f v = 1) : (l.map f).sum = l.length := by
  induction l with
  | nil => simp
  | cons v rest ih =>
      simp only [List.map_cons, List.sum_cons, List.length_cons]
      rw [h v (by simp), ih (fun v2 hv2 => h v2 (by simp [hv2]))]
      omega

/-- On a row of mutually scalar picks, the contributed widths are all 1. -/
theorem ws_sum_of_scalar_row (its : List (List PyVal)) (ws : List Nat)
    (r0 : List PyVal) (hlen : its.length = ws.length)
    (hw : ∀ p ∈ its.zip ws, ∀ v ∈ p.1, (flattenItem v).length = p.2)
    (hr : List.Forall₂ (fun v l => v ∈ l) r0 its)
    (hsc : r0.any PyVal.isIterNonStr = false) :
    ws.sum = r0.length := by
  have h1 := row_width its ws r0 hlen hw hr
  rw [← h1]
  have hone : ∀ v ∈ r0, (flattenItem v).length = 1 := by
    intro v hv
    have hs := List.any_eq_false.1 hsc v hv
    cases v <;> simp_all [flattenItem, flattenRow, flattenVal, PyVal.isIterNonStr]
  exact sum_map_ones r0 _ hone

/-- The element pool the multi-iterable constructor computes, by cases on
whether the first product row is nested. -/
theorem multiElems_cases (its : List (List PyVal)) (r0 : List PyVal)
    (rest : List (List PyVal)) (hrows : cartProd its = r0 :: rest) :
    (r0.any PyVal.isIterNonStr = true →
      multiElems its = (cartProd its).map (fun r => PyVal.vtup (flattenRow r))) ∧
    (r0.any PyVal.isIterNonStr = false →
      multiElems its = (cartProd its).map PyVal.vtup) := by
  unfold multiElems
  rw [hrows]
  constructor <;> intro h <;> simp [h]

/-! ### Frame lemmas for `subset` and `squeeze` -/

theorem subsetND_frame (s : NDState) (pat : List PyVal) :
    (subsetND s pat).2.list = s.list ∧ (subsetND s pat).2.set = s.set ∧
      (subsetND s pat).2.tuplelen = s.tuplelen := by
  rcases subsetND_post s pat with h | h
  · rw [h]
    exact ⟨rfl, rfl, rfl⟩
  · rw [h]
    exact ⟨(groupbyND_frame s _).1, (groupbyND_frame s _).2.1,
      (groupbyND_frame s _).2.2.1⟩

theorem squeezeND_frame (s : NDState) (ix : List Int) (names : Option (List Nat)) :
    (squeezeND s ix names).2.list = s.list ∧ (squeezeND s ix names).2.set = s.set ∧
      (squeezeND s ix names).2.tuplelen = s.tuplelen := by
  rcases squeezeND_post s ix names with h | h
  · rw [h]
    exact ⟨rfl, rfl, rfl⟩
  · rw [h]
    exact ⟨(groupbyND_frame s _).1, (groupbyND_frame s _).2.1,
      (groupbyND_frame s _).2.2.1⟩

theorem cacheFresh_of_empty {s : NDState} (h : s.indexGroups = []) : CacheFresh s := by
  intro pr hpr
  rw [h] at hpr
  cases hpr

theorem allWild_iff (pat : List PyVal) :
    (nonWildPositions 0 pat).length = 0 ↔ ∀ v ∈ pat, v = wildcard := by
  rw [length_nonWildPositions pat 0, List.length_eq_zero, List.filter_eq_nil_iff]
  constructor
  · intro h v hv
    have := h v hv
    simpa using this
  · intro h v hv
    simp [h v hv]

theorem noWild_iff (pat : List PyVal) :
    (nonWildPositions 0 pat).length = pat.length ↔ ∀ v ∈ pat, v ≠ wildcard := by
  rw [length_nonWildPositions pat 0]
  constructor
  · intro h
    have hfe : pat.filter (fun v => decide (v ≠ wildcard)) = pat :=
      (List.filter_sublist pat).eq_of_length h
    intro v hv
    have := List.filter_eq_self.1 hfe v hv
    simpa using this
  · intro h
    rw [List.filter_eq_self.2 (fun v hv => by simp [h v hv])]

/-! ## The claims -/

/-- C1 (amended): for every reachable non-empty `IndexSetND` and valid
non-degenerate pattern, `subset(*pattern)` returns a permutation of the
reference comprehension
`[e for e in collection if all(e[i] == p or p == '*' for i, p in enumerate(pattern))]`,
and returns exactly the comprehension (current element order) whenever
every populated cache entry reflects the current order — in particular in
every state in which the cache was not populated before a `sort()` or
`reverse()`.  The order guarantee of the original claim fails in states
reached by sorting after the cache was populated. -/
theorem C1_subset_matches_comprehension (s : NDState) (pat : List PyVal) (w : Nat)
    (hr : ReachableND s) (hne : s.list ≠ [])
    (hsc : pat.any PyVal.isIterNonStr = false)
    (hw : s.tuplelen = some w) (hl : pat.length = w)
    (hnw : ∃ v ∈ pat, v ≠ wildcard) (hwc : ∃ v ∈ pat, v = wildcard) :
    ∃ res, (subsetND s pat).1 = .ok res ∧ res.Perm (subsetSpec s.list pat) ∧
      (CacheFresh s → res = subsetSpec s.list pat) :=
  subsetND_ok s pat w (reachable_cacheInv hr) hne hsc hw hl hnw hwc

/-- Witness for C1: `IndexSetND([(0, 1), (0, 0)]).subset(0, '*')`. -/
theorem C1_subset_matches_comprehension_witness :
    ∃ res, (subsetND c1Start [PyVal.vint 0, wildcard]).1 = .ok res ∧
      res.Perm (subsetSpec c1Start.list [PyVal.vint 0, wildcard]) ∧
      (CacheFresh c1Start → res = subsetSpec c1Start.list [PyVal.vint 0, wildcard]) :=
  C1_subset_matches_comprehension c1Start [PyVal.vint 0, wildcard] 2
    (ReachableND.init1 [vt 0 1, vt 0 0] none c1Start (by decide))
    (by decide) (by decide) (by decide) (by decide)
    ⟨PyVal.vint 0, by decide, by decide⟩ ⟨wildcard, by decide, by decide⟩

/-- C1 counterexample: in the reachable state produced by `subset(0, '*')`
followed by `sort()` on `IndexSetND([(0, 1), (0, 0)])`, the cached
grouping is stale in order (`sort` does not clear the cache), so
`subset(0, '*')` returns `[(0, 1), (0, 0)]` while the comprehension over
the current element order gives `[(0, 0), (0, 1)]`. -/
theorem C1_subset_stale_after_sort_cex :
    ReachableND c1Sorted ∧ c1Sorted.list ≠ [] ∧ c1Sorted.tuplelen = some 2 ∧
      (∃ v ∈ [PyVal.vint 0, wildcard], v ≠ wildcard) ∧
      (∃ v ∈ [PyVal.vint 0, wildcard], v = wildcard) ∧
      (subsetND c1Sorted [PyVal.vint 0, wildcard]).1 ≠
        .ok (subsetSpec c1Sorted.list [PyVal.vint 0, wildcard]) := by
  refine ⟨?_, by decide, by decide, by decide, by decide, by decide⟩
  have h0 : ReachableND c1Start :=
    ReachableND.init1 [vt 0 1, vt 0 0] none c1Start (by decide)
  have h1 : ReachableND c1Cached :=
    ReachableND.step c1Start (NDOp.subsetQ [PyVal.vint 0, wildcard]) h0
  exact ReachableND.step c1Cached (NDOp.sortOp false) h1

/-- C2 (amended): after every *successful* structural mutation other than
an in-place concatenation with an empty (falsy) iterable, the entire
grouping cache is empty, so the next `subset`/`squeeze` call on any
dimension-index combination is computed from the post-mutation contents:
a returned subset equals the reference comprehension over the new list and
a returned squeeze container holds the first-occurrence projected keys of
the new list.  The original claim also fails for `__iadd__` with an empty
iterable, which skips validation and leaves a (possibly stale) cache in
place. -/
theorem C2_mutation_invalidates_cache (s : NDState) (op : MutOp) (s' : NDState)
    (hop : ∀ es, op = MutOp.iadd es → es ≠ [])
    (h : applyMut s op = (.ok (), s')) :
    s'.indexGroups = [] ∧
    (∀ pat res, (subsetND s' pat).1 = .ok res → res = subsetSpec s'.list pat) ∧
    (∀ ix names r, (squeezeND s' ix names).1 = .ok r →
      (∀ od, r = Sum.inl od →
        od.list = (squeezeSpec s'.list ix).map (fun k => k.headD (PyVal.vint 0))) ∧
      (∀ t, r = Sum.inr t → t.list = (squeezeSpec s'.list ix).map PyVal.vtup)) := by
  have hg := applyMut_ok_cache s op s' hop h
  have hfresh : CacheFresh s' := cacheFresh_of_empty hg
  exact ⟨hg, fun pat res hres => subsetND_fresh_ok s' pat res hfresh hres,
    fun ix names r hres => squeezeND_fresh_ok s' ix names r hfresh hres⟩

/-- Witness for C2: appending `(2, 2)` to the cached state empties the
cache, and the next `subset(0, '*')` is computed from the new contents. -/
theorem C2_mutation_invalidates_cache_witness :
    c1Cached.indexGroups ≠ [] ∧
    (applyMut c1Cached (MutOp.append (vt 2 2))).2.indexGroups = [] ∧
    ([vt 0 1, vt 0 0] : List PyVal) =
      subsetSpec (applyMut c1Cached (MutOp.append (vt 2 2))).2.list
        [PyVal.vint 0, wildcard] := by
  have happ : applyMut c1Cached (MutOp.append (vt 2 2)) =
      (.ok (), (applyMut c1Cached (MutOp.append (vt 2 2))).2) := by decide
  refine ⟨by decide, ?_, ?_⟩
  · exact (C2_mutation_invalidates_cache c1Cached (MutOp.append (vt 2 2)) _
      (fun es hc => MutOp.noConfusion hc) happ).1
  · exact (C2_mutation_invalidates_cache c1Cached (MutOp.append (vt 2 2)) _
      (fun es hc => MutOp.noConfusion hc) happ).2.1
      [PyVal.vint 0, wildcard] [vt 0 1, vt 0 0] (by decide)

/-- C2 counterexample: `s += []` succeeds and is an in-place concatenation,
but it leaves the stale cache in place, so the next `subset(0, '*')` on the
post-mutation object is still answered from the grouping cached before the
`sort()`, not from the post-mutation contents. -/
theorem C2_iadd_empty_keeps_stale_cache_cex :
    ReachableND c1Sorted ∧ c1Sorted.indexGroups ≠ [] ∧
    (applyMut c1Sorted (MutOp.iadd [])).1 = .ok () ∧
    (applyMut c1Sorted (MutOp.iadd [])).2 = c1Sorted ∧
    (subsetND (applyMut c1Sorted (MutOp.iadd [])).2 [PyVal.vint 0, wildcard]).1 ≠
      .ok (subsetSpec (applyMut c1Sorted (MutOp.iadd [])).2.list
        [PyVal.vint 0, wildcard]) := by
  refine ⟨?_, by decide, by decide, by decide, by decide⟩
  have h0 : ReachableND c1Start :=
    ReachableND.init1 [vt 0 1, vt 0 0] none c1Start (by decide)
  have h1 : ReachableND c1Cached :=
    ReachableND.step c1Start (NDOp.subsetQ [PyVal.vint 0, wildcard]) h0
  exact ReachableND.step c1Cached (NDOp.sortOp false) h1

/-- C3 is violated by the code: `IndexSetND().extend([(0, 1), (0, 1)])`
fails with the duplicate-element error and leaves the list and set empty,
yet `_validate_elements` has already established `_tuplelen = 2`, so a
subsequent `extend([(0, 1, 2)])` on the still-empty collection fails with
the inconsistent-width error instead of succeeding. -/
theorem C3_failed_extend_establishes_width :
    (ndExtend (ndEmpty none) [vt 0 1, vt 0 1]).1 = .error .duplicateElement ∧
    (ndExtend (ndEmpty none) [vt 0 1, vt 0 1]).2.list = [] ∧
    (ndExtend (ndEmpty none) [vt 0 1, vt 0 1]).2.set = ∅ ∧
    (ndExtend (ndEmpty none) [vt 0 1, vt 0 1]).2.indexGroups = [] ∧
    (ndExtend (ndEmpty none) [vt 0 1, vt 0 1]).2.tuplelen = some 2 ∧
    (ndExtend (ndExtend (ndEmpty none) [vt 0 1, vt 0 1]).2
        [PyVal.vtup [PyVal.vint 0, PyVal.vint 1, PyVal.vint 2]]).1 =
      .error .inconsistentTupleWidth := by
  decide

/-- C4 is violated by the code: `__delitem__` runs `_remove_elements`
*before* `del self._list[index]`, so deleting the only element of
`IndexSetND([(0, 1)])` leaves the collection empty with `_tuplelen` still
established (appending a width-3 tuple then fails), while `pop`, `remove`
and `clear` of the last element do reset the width as the claim states. -/
theorem C4_delete_to_empty_keeps_width :
    ndInitSingle [vt 0 1] none = .ok c4One ∧
    (ndDelIdx c4One 0).1 = .ok () ∧
    (ndDelIdx c4One 0).2.list = [] ∧
    (ndDelIdx c4One 0).2.tuplelen = some 2 ∧
    (ndAppend (ndDelIdx c4One 0).2
        (PyVal.vtup [PyVal.vint 0, PyVal.vint 1, PyVal.vint 2])).1 =
      .error .inconsistentTupleWidth ∧
    (ndDelSlice c4One { start := none, stop := none, step := none }).2.list = [] ∧
    (ndDelSlice c4One { start := none, stop := none, step := none }).2.tuplelen =
      some 2 ∧
    (ndPop c4One (-1)).2.tuplelen = none ∧
    (ndRemove c4One (vt 0 1)).2.tuplelen = none ∧
    (ndClear c4One).tuplelen = none := by
  decide

/-- C5 (amended): for every reachable non-empty `IndexSetND` of scalar
tuples whose populated cache entries reflect the current element order (in
particular whenever no `sort()`/`reverse()` ran after the cache was
populated), and every valid choice of dimension indices, `squeeze(*indices)`
returns a new container of the unique projected keys in first-occurrence
order relative to the current element order — an `IndexSet1D` of scalars
for one index, an `IndexSetND` of projected tuples for several.  The
original claim fails in states whose cache was populated before a
`sort()`. -/
theorem C5_squeeze_unique_keys (s : NDState) (ix : List Int) (w : Nat)
    (hr : ReachableND s) (hfresh : CacheFresh s) (hne : s.list ≠ [])
    (hw : s.tuplelen = some w) (hscal : scalarTuples s.list w = true)
    (hlen : ix.length < w) (hrange : ∀ i ∈ ix, 0 ≤ i ∧ i < (w : Int)) :
    (∀ i, ix = [i] → (squeezeND s ix none).1 = .ok (Sum.inl
      { list := (squeezeSpec s.list ix).map (fun k => k.headD (PyVal.vint 0)),
        set := ((squeezeSpec s.list ix).map (fun k => k.headD (PyVal.vint 0))).toFinset,
        name := none })) ∧
    (2 ≤ ix.length → (squeezeND s ix none).1 = .ok (Sum.inr
      { list := (squeezeSpec s.list ix).map PyVal.vtup,
        set := ((squeezeSpec s.list ix).map PyVal.vtup).toFinset,
        tuplelen := some ix.length, indexGroups := [], names := none })) := by
  constructor
  · intro i hix
    subst hix
    have h1w : 1 < w := by simpa using hlen
    exact squeezeND_one_ok s i w hfresh hne hw hscal
      (hrange i (by simp)).1 (hrange i (by simp)).2 h1w
  · intro hm
    exact squeezeND_multi_ok s ix w hfresh hne hw hm hlen hrange

/-- Witness for C5: `IndexSetND([(1, 5), (0, 6)]).squeeze(0)` returns the
`IndexSet1D` `[1, 0]` of first-occurrence projected keys. -/
theorem C5_squeeze_unique_keys_witness :
    (squeezeND c5Start [0] none).1 = .ok (Sum.inl
      { list := (squeezeSpec c5Start.list [0]).map (fun k => k.headD (PyVal.vint 0)),
        set := ((squeezeSpec c5Start.list [0]).map
          (fun k => k.headD (PyVal.vint 0))).toFinset,
        name := none }) :=
  (C5_squeeze_unique_keys c5Start [0] 2
    (ReachableND.init1 [vt 1 5, vt 0 6] none c5Start (by decide))
    (cacheFresh_of_empty (by decide)) (by decide) (by decide) (by decide)
    (by decide) (by decide)).1 0 rfl

/-- C5 counterexample: after `squeeze(0)` populated the cache and `sort()`
reordered the list, `squeeze(0)` answers from the stale cache (`[1, 0]`)
while the first-occurrence reference over the current order gives
`[0, 1]`. -/
theorem C5_squeeze_stale_after_sort_cex :
    ReachableND c5Sorted ∧ c5Sorted.list ≠ [] ∧ c5Sorted.tuplelen = some 2 ∧
    scalarTuples c5Sorted.list 2 = true ∧
    (squeezeND c5Sorted [0] none).1 ≠ .ok (Sum.inl
      { list := (squeezeSpec c5Sorted.list [0]).map (fun k => k.headD (PyVal.vint 0)),
        set := ((squeezeSpec c5Sorted.list [0]).map
          (fun k => k.headD (PyVal.vint 0))).toFinset,
        name := none }) := by
  refine ⟨?_, by decide, by decide, by decide, by decide⟩
  have h0 : ReachableND c5Start :=
    ReachableND.init1 [vt 1 5, vt 0 6] none c5Start (by decide)
  have h1 : ReachableND c5Cached :=
    ReachableND.step c5Start (NDOp.squeezeQ [0] none) h0
  exact ReachableND.step c5Cached (NDOp.sortOp false) h1

/-- C6 (amended): when an `IndexSetND` is successfully constructed from two
or more iterables, its elements are the Cartesian product rows in
`itertools.product` order; if the *first* product row contains a nested
non-string iterable each row is recursively flattened into a flat tuple
(and then the element width is the sum of the widths contributed by the
inputs), while if the first row is all scalars, rows are kept as produced
(nested values in *later* rows are not flattened).  The original claim,
which flattens whenever *any* row is nested, fails on mixed first
iterables. -/
theorem C6_product_construction (its : List (List PyVal)) (names : Option (List Nat))
    (t : NDState) (r0 : List PyVal) (rest : List (List PyVal))
    (hok : ndInitMulti its names = .ok t) (hrows : cartProd its = r0 :: rest) :
    (r0.any PyVal.isIterNonStr = true →
      t.list = (cartProd its).map (fun r => PyVal.vtup (flattenRow r))) ∧
    (r0.any PyVal.isIterNonStr = false →
      t.list = (cartProd its).map PyVal.vtup) ∧
    (∀ ws : List Nat, widthsContributed its ws = true →
      ∀ e ∈ t.list, pyLen e = ws.sum) := by
  have hl := ndInitMulti_list its names t hok
  have hc := multiElems_cases its r0 rest hrows
  refine ⟨fun h => by rw [hl, hc.1 h], fun h => by rw [hl, hc.2 h], ?_⟩
  intro ws hws e he
  obtain ⟨hwl, hw⟩ := widthsContributed_spec its ws hws
  rw [hl] at he
  by_cases hnest : r0.any PyVal.isIterNonStr = true
  · rw [hc.1 hnest] at he
    simp only [List.mem_map] at he
    obtain ⟨r, hr, hre⟩ := he
    rw [← hre]
    have hf2 := (mem_cartProd its r).1 hr
    show (flattenRow r).length = ws.sum
    rw [flattenRow_length, row_width its ws r hwl hw hf2]
  · have hnest' : r0.any PyVal.isIterNonStr = false := by
      simpa using hnest
    rw [hc.2 hnest'] at he
    simp only [List.mem_map] at he
    obtain ⟨r, hr, hre⟩ := he
    rw [← hre]
    have hf2 := (mem_cartProd its r).1 hr
    have hr0 := (mem_cartProd its r0).1 (by rw [hrows]; simp)
    show r.length = ws.sum
    rw [ws_sum_of_scalar_row its ws r0 hwl hw hr0 hnest',
      hf2.length_eq, hr0.length_eq]

/-- Witness for C6: `IndexSetND(['F1', 'F2', 'F3'], range(2))` holds
exactly the six product pairs in `itertools.product` order. -/
theorem C6_product_construction_witness :
    ndInitMulti c6Plain none = .ok c6Pairs ∧
    c6Pairs.list = (cartProd c6Plain).map PyVal.vtup ∧
    c6Pairs.list =
      [PyVal.vtup [PyVal.vstr 1, PyVal.vint 0], PyVal.vtup [PyVal.vstr 1, PyVal.vint 1],
       PyVal.vtup [PyVal.vstr 2, PyVal.vint 0], PyVal.vtup [PyVal.vstr 2, PyVal.vint 1],
       PyVal.vtup [PyVal.vstr 3, PyVal.vint 0], PyVal.vtup [PyVal.vstr 3, PyVal.vint 1]] := by
  refine ⟨by decide, ?_, by decide⟩
  exact (C6_product_construction c6Plain none c6Pairs [PyVal.vstr 1, PyVal.vint 0]
    [[PyVal.vstr 1, PyVal.vint 1], [PyVal.vstr 2, PyVal.vint 0],
     [PyVal.vstr 2, PyVal.vint 1], [PyVal.vstr 3, PyVal.vint 0],
     [PyVal.vstr 3, PyVal.vint 1]]
    (by decide) (by decide)).2.1 (by decide)

/-- C6 counterexample: `IndexSetND([1, (2, 3)], ['a'])` — the first product
row `(1, 'a')` is all scalars, so no row is flattened and the nested tuple
in the second row survives: the elements are
`[(1, 'a'), ((2, 3), 'a')]`, not the flattened rows the original claim
requires. -/
theorem C6_mixed_iterable_not_flattened_cex :
    (ndInitMulti c6Mixed none).map NDState.list =
      .ok [PyVal.vtup [PyVal.vint 1, PyVal.vstr 5],
           PyVal.vtup [PyVal.vtup [PyVal.vint 2, PyVal.vint 3], PyVal.vstr 5]] ∧
    (ndInitMulti c6Mixed none).map NDState.list ≠
      .ok ((cartProd c6Mixed).map (fun r => PyVal.vtup (flattenRow r))) := by
  decide

/-- C7 (confirmed): on every reachable `IndexSetND` with an established
width, `subset(*pattern)` raises the empty-collection error iff the
collection is empty; otherwise the non-scalar-pattern error iff some
pattern value is a non-string iterable; otherwise the length-mismatch
error iff the pattern length differs from the width; otherwise the
degenerate-pattern error iff the pattern is all wildcards or has none; and
a valid non-degenerate pattern matching no element returns `ok []`. -/
theorem C7_subset_error_conditions (s : NDState) (pat : List PyVal) (w : Nat)
    (hr : ReachableND s) (hw : s.tuplelen = some w) :
    ((subsetND s pat).1 = .error .emptyCollection ↔ s.list = []) ∧
    (s.list ≠ [] →
      ((subsetND s pat).1 = .error .nonScalarPatternValue ↔
        ∃ v ∈ pat, v.isIterNonStr = true)) ∧
    (s.list ≠ [] → (∀ v ∈ pat, v.isIterNonStr = false) →
      ((subsetND s pat).1 = .error .patternLengthMismatch ↔ pat.length ≠ w)) ∧
    (s.list ≠ [] → (∀ v ∈ pat, v.isIterNonStr = false) → pat.length = w →
      (((subsetND s pat).1 = .error .allWildcards ∨
        (subsetND s pat).1 = .error .noWildcards) ↔
        ((∀ v ∈ pat, v = wildcard) ∨ (∀ v ∈ pat, v ≠ wildcard)))) ∧
    (s.list ≠ [] → (∀ v ∈ pat, v.isIterNonStr = false) → pat.length = w →
      (∃ v ∈ pat, v = wildcard) → (∃ v ∈ pat, v ≠ wildcard) →
      subsetSpec s.list pat = [] → (subsetND s pat).1 = .ok []) := by
  have hres : (subsetND s pat).1 =
      if s.list = [] then .error .emptyCollection
      else if pat.any PyVal.isIterNonStr then .error .nonScalarPatternValue
      else if pat.length ≠ w then .error .patternLengthMismatch
      else if (nonWildPositions 0 pat).length = 0 then .error .allWildcards
      else if (nonWildPositions 0 pat).length = w then .error .noWildcards
      else .ok ((groupLookup (groupbyND s (nonWildPositions 0 pat)).1
        (pat.filter (fun v => decide (v ≠ wildcard)))).getD []) := by
    unfold subsetND
    rw [hw]
    by_cases h1 : s.list = [] <;> simp [List.isEmpty_iff, h1] <;>
      split_ifs <;> rfl
  refine ⟨?_, ?_, ?_, ?_, ?_⟩
  · by_cases h1 : s.list = []
    · simp [hres, h1]
    · rw [hres, if_neg h1]
      refine iff_of_false ?_ h1
      split_ifs <;> simp
  · intro hne
    rw [hres, if_neg hne]
    by_cases hany : pat.any PyVal.isIterNonStr = true
    · rw [if_pos hany]
      exact iff_of_true rfl (by simpa using List.any_eq_true.1 hany)
    · rw [if_neg hany]
      have hfalse : ¬ ∃ v ∈ pat, v.isIterNonStr = true := by
        rw [Bool.not_eq_true, List.any_eq_false] at hany
        rintro ⟨v, hv, hvi⟩
        exact absurd hvi (by simpa using hany v hv)
      refine iff_of_false ?_ hfalse
      split_ifs <;> simp
  · intro hne hsc
    have hany : pat.any PyVal.isIterNonStr = false :=
      List.any_eq_false.2 (fun v hv => by simp [hsc v hv])
    rw [hres, if_neg hne, hany]
    simp only [Bool.false_eq_true, if_false]
    by_cases hlen : pat.length = w
    · rw [if_neg (not_not_intro hlen)]
      refine iff_of_false ?_ (not_not_intro hlen)
      split_ifs <;> simp
    · rw [if_pos hlen]
      exact iff_of_true rfl hlen
  · intro hne hsc hlen
    have hany : pat.any PyVal.isIterNonStr = false :=
      List.any_eq_false.2 (fun v hv => by simp [hsc v hv])
    rw [hres, if_neg hne, hany]
    simp only [Bool.false_eq_true, if_false]
    rw [if_neg (not_not_intro hlen)]
    by_cases h0 : (nonWildPositions 0 pat).length = 0
    · rw [if_pos h0]
      exact iff_of_true (Or.inl rfl) (Or.inl ((allWild_iff pat).1 h0))
    · rw [if_neg h0]
      by_cases hall : (nonWildPositions 0 pat).length = w
      · rw [if_pos hall]
        refine iff_of_true (Or.inr rfl) (Or.inr ?_)
        rw [← hlen] at hall
        exact (noWild_iff pat).1 hall
      · rw [if_neg hall]
        refine iff_of_false (fun h => ?_) ?_
        · rcases h with h | h <;> exact Except.noConfusion h
        · rintro (h | h)
          · exact h0 ((allWild_iff pat).2 h)
          · refine hall ?_
            rw [← hlen]
            exact (noWild_iff pat).2 h
  · intro hne hsc hlen hwild hsome hnom
    have hany : pat.any PyVal.isIterNonStr = false :=
      List.any_eq_false.2 (fun v hv => by simp [hsc v hv])
    obtain ⟨res, hok, hperm, _⟩ :=
      subsetND_ok s pat w (reachable_cacheInv hr) hne hany hw hlen hsome hwild
    rw [hok]
    rw [hnom] at hperm
    rw [List.Perm.eq_nil hperm]

/-- Witness for C7: on `IndexSetND(range(2), range(2))`, the valid pattern
`(5, '*')` matches nothing and `subset(5, '*')` returns the empty list,
and the empty-collection error does not occur (the collection is
non-empty). -/
theorem C7_subset_error_conditions_witness :
    (¬ ((subsetND cmb2 [PyVal.vint 5, wildcard]).1 = .error .emptyCollection) ∧
      ¬ (cmb2.list = [])) ∧
    (subsetND cmb2 [PyVal.vint 5, wildcard]).1 = .ok [] := by
  have hr : ReachableND cmb2 :=
    ReachableND.initM [[PyVal.vint 0, PyVal.vint 1], [PyVal.vint 0, PyVal.vint 1]]
      none cmb2 (by decide)
  have h := C7_subset_error_conditions cmb2 [PyVal.vint 5, wildcard] 2 hr (by decide)
  refine ⟨⟨fun hc => ?_, by decide⟩, ?_⟩
  · exact absurd (h.1.1 hc) (by decide)
  · exact h.2.2.2.2 (by decide) (by decide) (by decide) (by decide)
      (by decide) (by decide)

/-- C8 (amended): every rich comparison on an `IndexSet1D` whose operand is
not an `IndexSet1D` raises the incomparable-types error, and every rich
comparison on an `IndexSetND` whose operand is not an `IndexSetND` raises
it too — *except* `<=` against a plain tuple consisting entirely of
`IndexSet1D` objects, which the overriding `IndexSetND.__le__` accepts.
The original claim, which extends the error to all plain tuples, fails on
such tuples. -/
theorem C8_comparisons_require_same_type (op : CmpOp) (s1 : OneDState)
    (s : NDState) (other : Operand) :
    ((∀ t, other ≠ Operand.o1d t) →
      cmp1D s1 op other = .error .incomparableTypes) ∧
    ((∀ t, other ≠ Operand.ond t) →
      (op = CmpOp.le → ∀ xs, other = Operand.otup xs → asAll1D xs = none) →
      (cmpND s op other).1 = .error .incomparableTypes) := by
  constructor
  · intro h
    cases other with
    | o1d t => exact absurd rfl (h t)
    | ond t => rfl
    | otup xs => rfl
    | oval v => rfl
  · intro h htup
    cases other with
    | ond t => exact absurd rfl (h t)
    | o1d t => cases op <;> rfl
    | oval v => cases op <;> rfl
    | otup xs =>
        cases op with
        | le =>
            show (leND s (Operand.otup xs)).1 = _
            unfold leND
            dsimp only
            rw [htup rfl xs rfl]
        | lt => rfl
        | eq => rfl
        | ne => rfl
        | gt => rfl
        | ge => rfl

/-- Witness for C8: `==` against a plain integer raises on both collection
types. -/
theorem C8_comparisons_require_same_type_witness :
    cmp1D c8A CmpOp.eq (Operand.oval (PyVal.vint 0)) =
      .error .incomparableTypes ∧
    (cmpND cmb2 CmpOp.eq (Operand.oval (PyVal.vint 0))).1 =
      .error .incomparableTypes := by
  have h := C8_comparisons_require_same_type CmpOp.eq c8A cmb2
    (Operand.oval (PyVal.vint 0))
  exact ⟨h.1 (fun t hc => Operand.noConfusion hc),
    h.2 (fun t hc => Operand.noConfusion hc) (fun hc => CmpOp.noConfusion hc)⟩

/-- C8 counterexample:
`IndexSetND(range(2), range(2)) <= (IndexSet1D([0, 1]), IndexSet1D([0, 1]))`
returns `True` — a rich comparison against a plain tuple that returns a
boolean instead of raising. -/
theorem C8_le_accepts_tuple_of_1d_cex :
    (cmpND cmb2 CmpOp.le (Operand.otup [Operand.o1d c8C, Operand.o1d c8C])).1 =
      .ok true := by
  decide

/-- C9 (confirmed): a valid non-degenerate subset query that matches no
element returns the empty list, and afterwards every cached grouping (for
any dimension-index combination, including the one just queried) contains
exactly the projected keys realized by at least one current element — no
spurious key is inserted by the no-match lookup. -/
theorem C9_cache_keys_exact (s : NDState) (pat : List PyVal) (w : Nat)
    (hr : ReachableND s) (hne : s.list ≠ [])
    (hsc : pat.any PyVal.isIterNonStr = false) (hw : s.tuplelen = some w)
    (hl : pat.length = w) (hnw : ∃ v ∈ pat, v ≠ wildcard)
    (hwc : ∃ v ∈ pat, v = wildcard) (hnom : subsetSpec s.list pat = []) :
    (subsetND s pat).1 = .ok [] ∧
    ∀ pr ∈ (subsetND s pat).2.indexGroups, ∀ k : List PyVal,
      ((∃ es, groupLookup pr.2 k = some es) ↔
        ∃ e ∈ s.list, projKey pr.1 e = k) := by
  have hinv := reachable_cacheInv hr
  constructor
  · obtain ⟨res, hres, hperm, _⟩ := subsetND_ok s pat w hinv hne hsc hw hl hnw hwc
    rw [hres]
    rw [hnom] at hperm
    rw [List.Perm.eq_nil hperm]
  · have hinv2 : CacheInv (subsetND s pat).2 := subsetND_cacheInv s pat hinv
    have hframe := (subsetND_frame s pat).1
    intro pr hpr k
    obtain ⟨l2, hperm, hg⟩ := hinv2 pr hpr
    rw [hframe] at hperm
    rw [hg, groupLookup_buildGroup]
    constructor
    · rintro ⟨es, hes⟩
      by_cases hf : l2.filter (fun e => decide (projKey pr.1 e = k)) = []
      · rw [if_pos hf] at hes
        exact Option.noConfusion hes
      · obtain ⟨e, he⟩ := List.exists_mem_of_ne_nil _ hf
        have hmem := List.mem_filter.1 he
        exact ⟨e, hperm.mem_iff.1 hmem.1, by simpa using hmem.2⟩
    · rintro ⟨e, hel, hek⟩
      have hmem : e ∈ l2.filter (fun e => decide (projKey pr.1 e = k)) :=
        List.mem_filter.2 ⟨hperm.mem_iff.2 hel, by simpa using hek⟩
      have hf : l2.filter (fun e => decide (projKey pr.1 e = k)) ≠ [] := by
        intro hc
        rw [hc] at hmem
        exact List.not_mem_nil e hmem
      rw [if_neg hf]
      exact ⟨_, rfl⟩

/-- Witness for C9: the no-match query `subset(5, '*')` on
`IndexSetND(range(2), range(2))` returns the empty list. -/
theorem C9_cache_keys_exact_witness :
    (subsetND cmb2 [PyVal.vint 5, wildcard]).1 = .ok [] :=
  (C9_cache_keys_exact cmb2 [PyVal.vint 5, wildcard] 2
    (ReachableND.initM [[PyVal.vint 0, PyVal.vint 1], [PyVal.vint 0, PyVal.vint 1]]
      none cmb2 (by decide))
    (by decide) (by decide) (by decide) (by decide) (by decide) (by decide)
    (by decide)).1

/-- C10 (confirmed): `subset` and `squeeze` (and the grouping they trigger)
never modify the observable collection — for every state, pattern and
dimension-index choice, the element list, the membership set and the
established tuple width are identical before and after the call, whether
it succeeds or fails. -/
theorem C10_subset_squeeze_frame (s : NDState) (pat : List PyVal)
    (ix : List Int) (names : Option (List Nat)) :
    (subsetND s pat).2.list = s.list ∧ (subsetND s pat).2.set = s.set ∧
    (subsetND s pat).2.tuplelen = s.tuplelen ∧
    (squeezeND s ix names).2.list = s.list ∧
    (squeezeND s ix names).2.set = s.set ∧
    (squeezeND s ix names).2.tuplelen = s.tuplelen :=
  ⟨(subsetND_frame s pat).1, (subsetND_frame s pat).2.1,
    (subsetND_frame s pat).2.2,
    (squeezeND_frame s ix names).1, (squeezeND_frame s ix names).2.1,
    (squeezeND_frame s ix names).2.2⟩

end OptiExt
